import Mathlib

/-!
# Shallow embedding of the join-execution layer (`src/common.rs`, `src/join.rs`)

This file models the three join operators of the repository — nested-loop join
(`Join`), hash equi-join (`HashEqJoin`) and parallel sort-merge join
(`SortMergeJoin`) — together with the value model (`Field`, `Tuple`) they
operate on, and proves/refutes the frozen specification claims about them.
Everything lives in the `Crusty` namespace (after the repository's `Crusty`
error/value types) because `Field` would otherwise clash with Mathlib.

Modelling conventions:
* `Vec<T>` becomes `List T`; `i32` becomes `Int` (wrap-around is modelled
  explicitly with `wrap32` at the cut-point arithmetic of `sort_m_way_l3`,
  the only place the code casts between integer widths).
* Child streams are materialised `List Tuple` values behaving like the
  repository's `TupleIterator` (open resets the cursor, `next` yields the
  list elements in order, `rewind` resets to the start).
* Panicking operations (`unwrap`, `Vec`/`HashMap` indexing) are modelled with
  `Option`: a `none` result means the Rust code panics.
* Rust's derived `Ord` on `Field` (`IntField` before `StringField`, each
  variant by its payload; `String` order is byte-lexicographic, which for
  UTF-8 coincides with Lean's `String` order) is realised as a
  `LinearOrder Field` instance; Rust's `Option<&Field>` ordering
  (`None < Some _`) is `WithBot Field`.
* The fork/join thread pattern (`thread::spawn` + `join` over pure closures,
  results collected in spawn order) is deterministic, so it is modelled by
  mapping the closure over the runs in order (`mapM` over `Option`).
* `HashMap<Field, Vec<Tuple>>` is modelled as an association list; the joins
  only use `contains_key`/`get`/`get_mut`/`insert` and the panicking `Index`,
  none of which depend on hash iteration order.
* Schemas (`TableSchema`, `get_schema`) are not modelled: no frozen claim
  mentions them.
-/

namespace Crusty

/-- `Field` from `common.rs`: a tagged value, either an integer or a string. -/
inductive Field : Type where
  | IntField : Int → Field
  | StringField : String → Field
deriving DecidableEq

namespace Field

/-- Strict order of Rust's `#[derive(Ord)]` on `Field`: variants compare in
declaration order (`IntField` below `StringField`), payloads by their own
order. -/
def flt : Field → Field → Prop
  | .IntField a, .IntField b => a < b
  | .IntField _, .StringField _ => True
  | .StringField _, .IntField _ => False
  | .StringField a, .StringField b => a < b

/-- Non-strict companion of `Field.flt`. -/
def fle : Field → Field → Prop
  | .IntField a, .IntField b => a ≤ b
  | .IntField _, .StringField _ => True
  | .StringField _, .IntField _ => False
  | .StringField a, .StringField b => a ≤ b

instance decidableFlt : DecidableRel flt := fun a b =>
  match a, b with
  | .IntField a, .IntField b => (inferInstance : Decidable (a < b))
  | .IntField _, .StringField _ => .isTrue trivial
  | .StringField _, .IntField _ => .isFalse (fun h => h)
  | .StringField a, .StringField b => (inferInstance : Decidable (a < b))

instance decidableFle : DecidableRel fle := fun a b =>
  match a, b with
  | .IntField a, .IntField b => (inferInstance : Decidable (a ≤ b))
  | .IntField _, .StringField _ => .isTrue trivial
  | .StringField _, .IntField _ => .isFalse (fun h => h)
  | .StringField a, .StringField b => (inferInstance : Decidable (a ≤ b))

instance : LinearOrder Field where
  le := fle
  lt := flt
  le_refl a := by
    cases a
    · exact Int.le_refl _
    · exact le_refl (α := String) _
  le_trans a b c hab hbc := by
    cases a <;> cases b <;> cases c
    all_goals first
      | exact (hab : False).elim
      | exact (hbc : False).elim
      | trivial
      | exact Int.le_trans hab hbc
      | exact le_trans (α := String) hab hbc
  le_antisymm a b hab hba := by
    cases a <;> cases b
    all_goals first
      | exact (hab : False).elim
      | exact (hba : False).elim
      | exact congrArg Field.IntField (Int.le_antisymm hab hba)
      | exact congrArg Field.StringField (le_antisymm hab hba)
  le_total a b := by
    cases a <;> cases b
    all_goals first
      | exact Or.inl trivial
      | exact Or.inr trivial
      | exact Int.le_total _ _
      | exact le_total (α := String) _ _
  lt_iff_le_not_le a b := by
    cases a <;> cases b
    all_goals first
      | exact lt_iff_le_not_le (α := ℤ)
      | exact lt_iff_le_not_le (α := String)
      | exact ⟨fun _ => ⟨trivial, fun h => h⟩, fun _ => trivial⟩
      | exact ⟨fun h => (h : False).elim, fun h => ((h.1 : False)).elim⟩
  decidableLE := decidableFle
  decidableEq := inferInstance
  decidableLT := decidableFlt

@[simp] theorem int_le_int (a b : Int) : (IntField a ≤ IntField b) ↔ a ≤ b := Iff.rfl
@[simp] theorem int_lt_int (a b : Int) : (IntField a < IntField b) ↔ a < b := Iff.rfl
@[simp] theorem str_le_str (a b : String) : (StringField a ≤ StringField b) ↔ a ≤ b := Iff.rfl
@[simp] theorem int_le_str (a : Int) (s : String) : IntField a ≤ StringField s := trivial
@[simp] theorem not_str_le_int (a : Int) (s : String) : ¬ StringField s ≤ IntField a := fun h => h

/-- `Field::unwrap_int_field` from `common.rs`: panics (`none`) unless the
field is an `IntField`. -/
def unwrap_int_field : Field → Option Int
  | .IntField i => some i
  | .StringField _ => none

end Field

/-- `Tuple` from `common.rs`: an ordered sequence of `Field`s. -/
structure Tuple : Type where
  field_vals : List Field
deriving DecidableEq

namespace Tuple

/-- `Tuple::new`. -/
def new (fv : List Field) : Tuple := ⟨fv⟩

/-- `Tuple::get_field`: `self.field_vals.get(i)`, `None` when out of range. -/
def get_field (t : Tuple) (i : Nat) : Option Field := t.field_vals.get? i

/-- `Tuple::merge`: concatenation of the two field lists. -/
def merge (t other : Tuple) : Tuple := ⟨t.field_vals ++ other.field_vals⟩

/-- The join-key of a tuple viewed through Rust's `Option<&Field>` order
(`None < Some _`), i.e. as `WithBot Field`.  `t.get_field i < u.get_field j`
in the Rust source is exactly `t.keyAt i < u.keyAt j` here. -/
def keyAt (t : Tuple) (i : Nat) : WithBot Field :=
  match t.field_vals.get? i with
  | some f => (f : WithBot Field)
  | none => ⊥

theorem keyAt_of_get_field {t : Tuple} {i : Nat} {f : Field}
    (h : t.get_field i = some f) : t.keyAt i = (f : WithBot Field) := by
  unfold keyAt
  rw [show t.field_vals.get? i = some f from h]

end Tuple

/-- `SimplePredicateOp` from `common.rs`. -/
inductive SimplePredicateOp : Type where
  | Equals
  | GreaterThan
  | LessThan
  | LessThanOrEq
  | GreaterThanOrEq
  | NotEq
  | All
deriving DecidableEq

namespace SimplePredicateOp

/-- `SimplePredicateOp::compare`, specialised to `Field` (the only
instantiation the joins use). -/
def compare (op : SimplePredicateOp) (left_field right_field : Field) : Bool :=
  match op with
  | .Equals => decide (left_field = right_field)
  | .GreaterThan => decide (left_field > right_field)
  | .LessThan => decide (left_field < right_field)
  | .LessThanOrEq => decide (left_field ≤ right_field)
  | .GreaterThanOrEq => decide (left_field ≥ right_field)
  | .NotEq => decide (left_field ≠ right_field)
  | .All => true

/-- `SimplePredicateOp::flip`. -/
def flip : SimplePredicateOp → SimplePredicateOp
  | .GreaterThan => .LessThan
  | .LessThan => .GreaterThan
  | .LessThanOrEq => .GreaterThanOrEq
  | .GreaterThanOrEq => .LessThanOrEq
  | op => op

end SimplePredicateOp

/-- `JoinPredicate` from `join.rs`. -/
structure JoinPredicate : Type where
  op : SimplePredicateOp
  left_index : Nat
  right_index : Nat
deriving DecidableEq

namespace JoinPredicate

/-- `JoinPredicate::new`. -/
def new (op : SimplePredicateOp) (left_index right_index : Nat) : JoinPredicate :=
  ⟨op, left_index, right_index⟩

/-- `JoinPredicate::cmp`: both `get_field(..).unwrap()` calls panic (`none`)
when an index is out of range. -/
def cmp (p : JoinPredicate) (left_tuple right_tuple : Tuple) : Option Bool :=
  match left_tuple.get_field p.left_index, right_tuple.get_field p.right_index with
  | some lf, some rf => some (p.op.compare lf rf)
  | _, _ => none

end JoinPredicate

/-- `Join` from `join.rs` (nested-loop join): the predicate, the two
materialised child streams (`left_child`/`right_child` hold the full stream
contents, as a `TupleIterator` would), and the iteration state — the part of
each child not yet consumed plus the buffered current left tuple. -/
structure Join : Type where
  predicate : JoinPredicate
  left_child : List Tuple
  right_child : List Tuple
  left_rem : List Tuple
  left_tuple_cur : Tuple
  right_rem : List Tuple
deriving DecidableEq

namespace Join

/-- `Join::open`: opens the left child and pulls one tuple into
`left_tuple_cur` via `.next()?.unwrap()` — a panic (`none`) when the left
child is empty — then opens the right child. -/
def openOp (p : JoinPredicate) (left right : List Tuple) : Option Join :=
  match left with
  | [] => none
  | t :: ls => some ⟨p, left, right, ls, t, right⟩

/-- The `while let Some(t) = self.right_child.next()?` loop of `Join::next`:
scan the right child for the first tuple matching `cur`, returning the merged
output and the rest of the right stream.  Outer `none` is a predicate-panic
(field index out of range), `some none` means the right child was exhausted
without a match. -/
def scanRight (p : JoinPredicate) (cur : Tuple) :
    List Tuple → Option (Option (Tuple × List Tuple))
  | [] => some none
  | t :: ts =>
    match p.cmp cur t with
    | none => none
    | some true => some (some (cur.merge t, ts))
    | some false => scanRight p cur ts

/-- Recursive core of `Join::next` on the cursor components
`(left_rem, left_tuple_cur, right_rem)`; structural recursion on `left_rem`
mirrors the `self.next()` tail call after advancing the left tuple. -/
def nextGo (p : JoinPredicate) (rightAll : List Tuple) :
    List Tuple → Tuple → List Tuple → Option (Option Tuple × List Tuple × Tuple × List Tuple)
  | leftRem, cur, rightRem =>
    match scanRight p cur rightRem with
    | none => none
    | some (some (out, rest)) => some (some out, leftRem, cur, rest)
    | some none =>
      match leftRem with
      | [] => some (none, [], cur, [])
      | t :: ls => nextGo p rightAll ls t rightAll

/-- `Join::next`: scan the right child from its current position; on match
return the concatenation; when the right child is exhausted, pull the next
left tuple, rewind the right child and retry; end-of-stream (`some (none, _)`)
once the left child is exhausted. -/
def next (j : Join) : Option (Option Tuple × Join) :=
  (nextGo j.predicate j.right_child j.left_rem j.left_tuple_cur j.right_rem).map
    fun r => (r.1, { j with left_rem := r.2.1, left_tuple_cur := r.2.2.1,
                            right_rem := r.2.2.2 })

/-- `Join::rewind`: rewind both children and re-prime `left_tuple_cur` via
`.next()?.unwrap()` (panic when the left child is empty). -/
def rewindOp (j : Join) : Option Join :=
  match j.left_child with
  | [] => none
  | t :: ls =>
    some { j with left_rem := ls, left_tuple_cur := t, right_rem := j.right_child }

/-- Driving harness for the claims: call `next` repeatedly until it reports
end-of-stream, collecting the produced tuples.  `fuel` bounds the number of
calls (the claims quantify over a sufficient number of calls); `none` means a
panic occurred or `fuel` ran out. -/
def drain : Nat → Join → Option (List Tuple)
  | 0, _ => none
  | fuel + 1, j =>
    match j.next with
    | none => none
    | some (none, _) => some []
    | some (some t, j') => (drain fuel j').map (t :: ·)

/-- Variant of the driving harness that also returns the operator state after
the end-of-stream `next` — needed for the rewind claims, where the second
drain starts from the state left behind by the first. -/
def drainSt : Nat → Join → Option (List Tuple × Join)
  | 0, _ => none
  | fuel + 1, j =>
    match j.next with
    | none => none
    | some (none, j') => some ([], j')
    | some (some t, j') => (drainSt fuel j').map fun r => (t :: r.1, r.2)

end Join

/-- Specification-side helper (from the claim's words, for C1): the matches of
one left tuple against a list of right tuples.  `p.cmp l r = some true` is
"the pair satisfies the predicate". -/
def matchesSpec (p : JoinPredicate) (l : Tuple) (rs : List Tuple) : List Tuple :=
  rs.filterMap fun r =>
    match p.cmp l r with
    | some true => some (l.merge r)
    | _ => none

/-- Specification-side definition (from the claim's words, for C1): the
tuple-concatenations over the cross product of the two streams that satisfy
the join predicate, in left-major order. -/
def crossJoinSpec (p : JoinPredicate) (left right : List Tuple) : List Tuple :=
  left.flatMap fun l => matchesSpec p l right

/-! ## Hash equi-join (`HashEqJoin` from `join.rs`)

`HashMap<Field, Vec<Tuple>>` is modelled as an association list: the operator
only ever uses `contains_key`, `get`, `get_mut(..).push`, `insert` and the
panicking `Index`, none of which observe hash order. -/

/-- `HashMap::get` on the association-list model. -/
def htLookup : List (Field × List Tuple) → Field → Option (List Tuple)
  | [], _ => none
  | (g, v) :: rest, f => if g = f then some v else htLookup rest f

/-- One build step of `HashEqJoin::open`: `get_mut(..).push(t)` when the key
is present, `insert(key, vec![t])` otherwise. -/
def htAdd : List (Field × List Tuple) → Field → Tuple → List (Field × List Tuple)
  | [], f, t => [(f, [t])]
  | (g, v) :: rest, f, t =>
    if g = f then (g, v ++ [t]) :: rest else (g, v) :: htAdd rest f t

/-- The build loop of `HashEqJoin::open`: drain the left child into the map,
keyed by the left join field; `get_field(..).unwrap()` panics (`none`) on an
out-of-range index. -/
def buildHt (left_index : Nat) : List Tuple → List (Field × List Tuple) →
    Option (List (Field × List Tuple))
  | [], ht => some ht
  | t :: ts, ht =>
    match t.get_field left_index with
    | none => none
    | some f => buildHt left_index ts (htAdd ht f t)

/-- The `while let Some(t) = self.right_child.next()?` scan shared by
`HashEqJoin::partial_open` and the probe phase of `HashEqJoin::next`: find the
first right tuple whose join-field value is a key of the map, returning the
key, the tuple and the rest of the right stream (`some none` when the right
child runs out). -/
def seekMatch (ht : List (Field × List Tuple)) (right_index : Nat) :
    List Tuple → Option (Option (Field × Tuple × List Tuple))
  | [] => some none
  | t :: ts =>
    match t.get_field right_index with
    | none => none
    | some f =>
      if (htLookup ht f).isSome then some (some (f, t, ts))
      else seekMatch ht right_index ts

/-- `HashEqJoin` from `join.rs`: predicate, materialised children, the map and
the probe cursor (`field_cur`, `index_cur`, `right_tuple_cur`), plus the
children's iteration state. -/
structure HashEqJoin : Type where
  predicate : JoinPredicate
  left_child : List Tuple
  right_child : List Tuple
  is_open : Bool
  ht : List (Field × List Tuple)
  field_cur : Field
  index_cur : Nat
  right_tuple_cur : Tuple
  left_rem : List Tuple
  right_rem : List Tuple
deriving DecidableEq

namespace HashEqJoin

/-- `HashEqJoin::new`: no validation of the operator — the struct is built for
any `SimplePredicateOp`, with sentinel cursor values `field_cur =
IntField(0)`, `index_cur = 0` and an empty `right_tuple_cur`. -/
def new (op : SimplePredicateOp) (left_index right_index : Nat)
    (left_child right_child : List Tuple) : HashEqJoin :=
  { predicate := JoinPredicate.new op left_index right_index
    left_child := left_child
    right_child := right_child
    is_open := false
    ht := []
    field_cur := Field.IntField 0
    index_cur := 0
    right_tuple_cur := Tuple.new []
    left_rem := left_child
    right_rem := right_child }

/-- `HashEqJoin::partial_open`: seek the first matching right tuple; when one
is found set the cursor to its key with `index_cur = 0`, otherwise leave the
cursor fields untouched (the right child is consumed either way). -/
def partOpen (j : HashEqJoin) : Option HashEqJoin :=
  match seekMatch j.ht j.predicate.right_index j.right_rem with
  | none => none
  | some none => some { j with right_rem := [] }
  | some (some (f, t, ts)) =>
    some { j with field_cur := f, index_cur := 0, right_tuple_cur := t, right_rem := ts }

/-- `HashEqJoin::open`: build the map from the left child, open the right
child and run `partial_open`. -/
def openOp (j : HashEqJoin) : Option HashEqJoin :=
  match buildHt j.predicate.left_index j.left_child j.ht with
  | none => none
  | some ht =>
    partOpen { j with is_open := true, ht := ht, left_rem := [], right_rem := j.right_child }

/-- `HashEqJoin::next`.  The first step `self.ht[&self.field_cur]` uses
`HashMap`'s panicking `Index` — `none` when `field_cur` is not a key.  Then:
if the current group still has unvisited members, emit the next one merged
with `right_tuple_cur`; otherwise probe right tuples until one whose key is in
the map (emitting `vec[0]` merged with it and setting `index_cur = 1`), or
end-of-stream when the right child is exhausted. -/
def next (j : HashEqJoin) : Option (Option Tuple × HashEqJoin) :=
  match htLookup j.ht j.field_cur with
  | none => none
  | some grp =>
    match grp.get? j.index_cur with
    | some t => some (some (t.merge j.right_tuple_cur), { j with index_cur := j.index_cur + 1 })
    | none =>
      match seekMatch j.ht j.predicate.right_index j.right_rem with
      | none => none
      | some none => some (none, { j with right_rem := [] })
      | some (some (f, t, ts)) =>
        match htLookup j.ht f with
        | none => none
        | some grp2 =>
          match grp2.get? 0 with
          | none => none
          | some h =>
            some (some (h.merge t),
              { j with field_cur := f, index_cur := 1, right_tuple_cur := t, right_rem := ts })

/-- `HashEqJoin::rewind`: keep the map, rewind only the right child, and
re-run `partial_open`. -/
def rewindOp (j : HashEqJoin) : Option HashEqJoin :=
  partOpen { j with right_rem := j.right_child }

/-- Driving harness: repeated `next` until end-of-stream, collecting outputs
and the final state.  `fuel` bounds the number of calls; `none` means a panic
or fuel exhaustion. -/
def drain : Nat → HashEqJoin → Option (List Tuple × HashEqJoin)
  | 0, _ => none
  | fuel + 1, j =>
    match j.next with
    | none => none
    | some (none, j') => some ([], j')
    | some (some t, j') => (drain fuel j').map fun r => (t :: r.1, r.2)

end HashEqJoin

/-! ## Sort-merge join (`SortMergeJoin` and its helper functions, `join.rs`) -/

/-- `compare_min` from `join.rs`: `a.get_field(index) < b.get_field(index)` is
the Rust `Option<&Field>` order, i.e. `keyAt` in `WithBot Field`; ties return
`b`. -/
def compare_min (a b : Tuple) (index : Nat) : Tuple :=
  if a.keyAt index < b.keyAt index then a else b

/-- `compare_max` from `join.rs`; ties return `b`. -/
def compare_max (a b : Tuple) (index : Nat) : Tuple :=
  if b.keyAt index < a.keyAt index then a else b

/-- `sort_run_l1` from `join.rs`: the fixed 4-element network
(0,1),(2,3),(0,2),(1,3),(1,2), each step realised as
`temp = compare_min(run[i], run[j]); run[j] = compare_max(..); run[i] = temp`.
Indexing panics (`none`) when the run has fewer than 4 tuples. -/
def sort_run_l1 (run : List Tuple) (index : Nat) : Option (List Tuple) := do
  let r0 ← run.get? 0
  let r1 ← run.get? 1
  let run := (run.set 1 (compare_max r0 r1 index)).set 0 (compare_min r0 r1 index)
  let r2 ← run.get? 2
  let r3 ← run.get? 3
  let run := (run.set 3 (compare_max r2 r3 index)).set 2 (compare_min r2 r3 index)
  let a0 ← run.get? 0
  let a2 ← run.get? 2
  let run := (run.set 2 (compare_max a0 a2 index)).set 0 (compare_min a0 a2 index)
  let a1 ← run.get? 1
  let a3 ← run.get? 3
  let run := (run.set 3 (compare_max a1 a3 index)).set 1 (compare_min a1 a3 index)
  let b1 ← run.get? 1
  let b2 ← run.get? 2
  let run := (run.set 2 (compare_max b1 b2 index)).set 1 (compare_min b1 b2 index)
  pure run

/-- One comparator of `sort_run_l2`:
`if compare_max(run[i], run[j], index) == run[i] { run.swap(i, j) }`. -/
def cswapL2 (run : List Tuple) (i j index : Nat) : Option (List Tuple) := do
  let a ← run.get? i
  let b ← run.get? j
  if compare_max a b index = a then pure ((run.set i b).set j a) else pure run

/-- The value pair produced by one `cswapL2` comparator — (new tuple at `i`,
new tuple at `j`) — used to state the network's input/output relation. -/
def csw (a b : Tuple) (index : Nat) : Tuple × Tuple :=
  if compare_max a b index = a then (b, a) else (a, b)

/-- `sort_run_l2` from `join.rs` (the active "second way" code path): three
comparator stages {(3,7),(2,6),(1,5),(0,4)}, {(0,2),(5,7),(1,3),(4,6)},
{(0,1),(2,3),(4,5),(6,7)} realised with conditional `swap`s. -/
def sort_run_l2 (run : List Tuple) (index : Nat) : Option (List Tuple) := do
  let run ← cswapL2 run 3 7 index
  let run ← cswapL2 run 2 6 index
  let run ← cswapL2 run 1 5 index
  let run ← cswapL2 run 0 4 index
  let run ← cswapL2 run 0 2 index
  let run ← cswapL2 run 5 7 index
  let run ← cswapL2 run 1 3 index
  let run ← cswapL2 run 4 6 index
  let run ← cswapL2 run 0 1 index
  let run ← cswapL2 run 2 3 index
  let run ← cswapL2 run 4 5 index
  let run ← cswapL2 run 6 7 index
  pure run

/-- `sort_runs` from `join.rs`: spawn one worker per run and join them in
spawn order — deterministically, a `mapM` of the per-run sorter. -/
def sort_runs (runs : List (List Tuple)) (index : Nat) (level : Nat) :
    Option (List (List Tuple)) :=
  if level = 1 then runs.mapM fun run => sort_run_l1 run index
  else runs.mapM fun run => sort_run_l2 run index

/-- The loop of `merge_1_to_2` from `join.rs`, with its `counter`, `temp` and
`res` locals: odd counter appends the run to `temp`, even counter appends the
reversed run and pushes the completed pair. -/
def merge12Go : List (List Tuple) → Nat → List Tuple → List (List Tuple) →
    List (List Tuple)
  | [], _, _, res => res
  | run :: rest, counter, temp, res =>
    if counter % 2 ≠ 0 then merge12Go rest (counter + 1) (temp ++ run) res
    else merge12Go rest (counter + 1) [] (res ++ [temp ++ run.reverse])

/-- `merge_1_to_2` from `join.rs`. -/
def merge_1_to_2 (runs : List (List Tuple)) : List (List Tuple) :=
  merge12Go runs 1 [] []

/-- `i32` wrap-around, for the `as i32`/release-mode overflow semantics of the
cut-point arithmetic in `sort_m_way_l3`. -/
def wrap32 (z : Int) : Int := (z + 2 ^ 31) % 2 ^ 32 - 2 ^ 31

/-- The redistribution loop of `sort_m_way_l3`: every tuple of every run,
in order, goes to bucket 1 (`key ≤ one_third`), bucket 2
(`one_third < key ≤ two_third`) or bucket 3 (`key > two_third`);
`get_field(..).unwrap()` panics on an out-of-range index. -/
def partition3 (one_third two_third : Int) (index : Nat) :
    List Tuple → Option (List Tuple × List Tuple × List Tuple)
  | [] => some ([], [], [])
  | t :: ts => do
    let f ← t.get_field index
    let r ← partition3 one_third two_third index ts
    if f ≤ Field.IntField one_third then pure (t :: r.1, r.2.1, r.2.2)
    else if f ≤ Field.IntField two_third then pure (r.1, t :: r.2.1, r.2.2)
    else pure (r.1, r.2.1, t :: r.2.2)

/-- The `sort_by(|a,b| a.get_field(index).cmp(..))` ordering: non-decreasing
join keys.  At its call sites every key was already unwrapped by the partition
loop, where the `WithBot` order agrees with the plain `Field` order.  Rust's
`sort_by` (a stable sort by the comparator) is modelled by the stable
`List.insertionSort` under this relation. -/
def tupleLe (index : Nat) (a b : Tuple) : Prop := a.keyAt index ≤ b.keyAt index

instance (index : Nat) : DecidableRel (tupleLe index) := fun a b =>
  inferInstanceAs (Decidable (a.keyAt index ≤ b.keyAt index))

instance (index : Nat) : IsTotal Tuple (tupleLe index) :=
  ⟨fun _ _ => le_total _ _⟩

instance (index : Nat) : IsTrans Tuple (tupleLe index) :=
  ⟨fun _ _ _ => le_trans⟩

/-- `sort_m_way_l3` from `join.rs`: cut points at min + (max−min)/3 and
min + (max−min)·2/3 in `i32` arithmetic, range partition of all tuples of all
runs into 3 buckets, then a full sort of each bucket by join key. -/
def sort_m_way_l3 (runs : List (List Tuple)) (mn mx : Tuple) (index : Nat) :
    Option (List (List Tuple)) := do
  let minF ← mn.get_field index
  let min_val ← minF.unwrap_int_field
  let maxF ← mx.get_field index
  let max_val ← maxF.unwrap_int_field
  let one_third := wrap32 (min_val + Int.tdiv (wrap32 (max_val - min_val)) 3)
  let two_third := wrap32 (min_val + Int.tdiv (wrap32 (wrap32 (max_val - min_val) * 2)) 3)
  let r ← partition3 one_third two_third index runs.flatten
  pure [r.1.insertionSort (tupleLe index), r.2.1.insertionSort (tupleLe index),
        r.2.2.insertionSort (tupleLe index)]

/-- The inner right-run scan shared by `join_m_way` and `join_m_pass`: walk
the (sorted) right run, `break` as soon as a right key exceeds the left key,
emit the concatenation on predicate matches.  The `break` comparison unwraps
both fields (`none` on out-of-range indices). -/
def joinScan (pre : JoinPredicate) (t : Tuple) : List Tuple → Option (List Tuple)
  | [] => some []
  | t_r :: rest => do
    let fr ← t_r.get_field pre.right_index
    let fl ← t.get_field pre.left_index
    if fl < fr then pure []
    else
      match pre.cmp t t_r with
      | none => none
      | some true => (joinScan pre t rest).map (t.merge t_r :: ·)
      | some false => joinScan pre t rest

/-- `join_m_way` from `join.rs`: scan the single aligned right bucket for each
left tuple. -/
def join_m_way (run : List Tuple) (right_run : List Tuple) (pre : JoinPredicate) :
    Option (List Tuple) :=
  (run.mapM fun t => joinScan pre t right_run).map List.flatten

/-- `join_m_pass` from `join.rs`: scan every right run for each left tuple. -/
def join_m_pass (run : List Tuple) (right_runs : List (List Tuple))
    (pre : JoinPredicate) : Option (List Tuple) :=
  (run.mapM fun t => (right_runs.mapM fun rr => joinScan pre t rr).map List.flatten).map
    List.flatten

/-- `SortMergeJoin` from `join.rs`: the fields that survive `open` (the
children are fully drained by it, so they are not part of the state the
claims are about). -/
structure SortMergeJoin : Type where
  predicate : JoinPredicate
  is_open : Bool
  sort_merge_method : Int
  l3_runs_l : List (List Tuple)
  l3_runs_r : List (List Tuple)
  min_r : Tuple
  max_r : Tuple
deriving DecidableEq

namespace SortMergeJoin

/-- The initial `min_r` sentinel from `SortMergeJoin::new`. -/
def minSentinel : Tuple :=
  Tuple.new [.IntField 999999, .IntField 999999, .IntField 999999, .IntField 999999]

/-- The initial `max_r` sentinel from `SortMergeJoin::new` (an empty tuple). -/
def maxSentinel : Tuple := Tuple.new []

/-- The run-splitting loop of `SortMergeJoin::open` with its `l1_temp`
accumulator: a run is pushed once the accumulator holds 4 tuples and a fresh
one is started; the final accumulator is pushed unconditionally (even when it
is empty or holds fewer than 4 tuples). -/
def splitGo : List Tuple → List Tuple → List (List Tuple) → List (List Tuple)
  | [], temp, runs => runs ++ [temp]
  | t :: ts, temp, runs =>
    if temp.length = 4 then splitGo ts [t] (runs ++ [temp])
    else splitGo ts (temp ++ [t]) runs

/-- Partition one materialised child into level-1 runs. -/
def splitRuns4 (ts : List Tuple) : List (List Tuple) := splitGo ts [] []

/-- The min/max scan inlined in `SortMergeJoin::open`'s m-way branch: fold
`compare_max`/`compare_min` against the running extrema over every tuple of
every level-2 right run, starting from the sentinels. -/
def minMaxScan (right_index : Nat) (runs : List (List Tuple)) (mn mx : Tuple) :
    Tuple × Tuple :=
  runs.flatten.foldl
    (fun mm t =>
      (if compare_min t mm.1 right_index = t then t else mm.1,
       if compare_max t mm.2 right_index = t then t else mm.2))
    (mn, mx)

/-- `SortMergeJoin::open`, from the constructor parameters (predicate, level-3
strategy, children): split both children into level-1 runs, sort them with the
level-1 network, pair them into level-2 runs, sort those with the level-2
network, then either range-partition into 3 aligned buckets (m-way,
`sort_merge_method == 1`) or use the level-2 runs directly (m-pass). -/
def openOp (p : JoinPredicate) (sort_merge_method : Int) (left right : List Tuple) :
    Option SortMergeJoin := do
  let l1_runs_l := splitRuns4 left
  let l1_runs_r := splitRuns4 right
  let l1_runs_l ← sort_runs l1_runs_l p.left_index 1
  let l1_runs_r ← sort_runs l1_runs_r p.right_index 1
  let l2_runs_l := merge_1_to_2 l1_runs_l
  let l2_runs_r := merge_1_to_2 l1_runs_r
  let l2_runs_l ← sort_runs l2_runs_l p.left_index 2
  let l2_runs_r ← sort_runs l2_runs_r p.right_index 2
  if sort_merge_method = 1 then
    let mm := minMaxScan p.right_index l2_runs_r minSentinel maxSentinel
    let l3_runs_l ← sort_m_way_l3 l2_runs_l mm.1 mm.2 p.left_index
    let l3_runs_r ← sort_m_way_l3 l2_runs_r mm.1 mm.2 p.right_index
    pure ⟨p, true, sort_merge_method, l3_runs_l, l3_runs_r, mm.1, mm.2⟩
  else
    pure ⟨p, true, sort_merge_method, l2_runs_l, l2_runs_r, minSentinel, maxSentinel⟩

/-- The whole merge-join computation performed by one `SortMergeJoin::next`
call: one worker per left run (m-way pairs run `i` with right bucket `i` via
the panicking `right_runs[run_counter]` indexing, modelled by `get?`), joined
in spawn order. -/
def joinAll (s : SortMergeJoin) : Option (List (List Tuple)) :=
  if s.sort_merge_method = 1 then
    s.l3_runs_l.enum.mapM fun ir => do
      let rr ← s.l3_runs_r.get? ir.1
      join_m_way ir.2 rr s.predicate
  else
    s.l3_runs_l.mapM fun run => join_m_pass run s.l3_runs_r s.predicate

/-- `SortMergeJoin::next`: perform the entire merge-join eagerly, store the
joined runs back into `l3_runs_l`, and return `Ok(None)`. -/
def next (s : SortMergeJoin) : Option (Option Tuple × SortMergeJoin) :=
  (joinAll s).map fun joined => (none, { s with l3_runs_l := joined })

/-- The result tuples observable through the internal `l3_runs_l` field. -/
def results (s : SortMergeJoin) : List Tuple := s.l3_runs_l.flatten

/-- Driving harness for the claims: open, one `next` call, read the results
off the internal field. -/
def drive (p : JoinPredicate) (method : Int) (left right : List Tuple) :
    Option (List Tuple) := do
  let s ← openOp p method left right
  let r ← next s
  pure (results r.2)

end SortMergeJoin

/-- `create_tuple_list` from the repository's test module: integer tuples from
a 2-dimensional integer list (also used here to state concrete instances). -/
def create_tuple_list (l : List (List Int)) : List Tuple :=
  l.map fun r => Tuple.new (r.map .IntField)

/-- Loop invariant of the nested-loop join state: every predicate field index
is in range for the tuples it will be applied to (the spec calls an invalid
index a programming-error precondition). -/
def Join.Inv (j : Join) : Prop :=
  j.predicate.left_index < j.left_tuple_cur.field_vals.length ∧
  (∀ t ∈ j.left_rem, j.predicate.left_index < t.field_vals.length) ∧
  (∀ t ∈ j.right_rem, j.predicate.right_index < t.field_vals.length) ∧
  (∀ t ∈ j.right_child, j.predicate.right_index < t.field_vals.length)

/-- The output still to be produced from a nested-loop join state j: the
matches of the current left tuple against the remaining right stream, then the
full cross-product matches of the remaining left tuples. -/
def Join.total (j : Join) : List Tuple :=
  matchesSpec j.predicate j.left_tuple_cur j.right_rem ++
    crossJoinSpec j.predicate j.left_rem j.right_child

/-! ## Claim C1: nested-loop join drains to the filtered cross product -/

theorem get_field_eq_some {t : Tuple} {i : Nat} (h : i < t.field_vals.length) :
    ∃ f, t.get_field i = some f :=
  ⟨t.field_vals.get ⟨i, h⟩, by simp [Tuple.get_field, List.get?_eq_get h]⟩

theorem cmp_eq_some {p : JoinPredicate} {l r : Tuple}
    (hl : p.left_index < l.field_vals.length)
    (hr : p.right_index < r.field_vals.length) :
    ∃ b, p.cmp l r = some b := by
  obtain ⟨lf, hlf⟩ := get_field_eq_some hl
  obtain ⟨rf, hrf⟩ := get_field_eq_some hr
  exact ⟨p.op.compare lf rf, by simp [JoinPredicate.cmp, hlf, hrf]⟩

theorem matchesSpec_nil (p : JoinPredicate) (l : Tuple) : matchesSpec p l [] = [] := rfl

theorem crossJoinSpec_nil (p : JoinPredicate) (rs : List Tuple) :
    crossJoinSpec p [] rs = [] := rfl

theorem crossJoinSpec_cons (p : JoinPredicate) (l : Tuple) (ls rs : List Tuple) :
    crossJoinSpec p (l :: ls) rs = matchesSpec p l rs ++ crossJoinSpec p ls rs := by
  simp [crossJoinSpec, List.flatMap_cons]

theorem scanRight_spec (p : JoinPredicate) (cur : Tuple)
    (hc : p.left_index < cur.field_vals.length) :
    ∀ rs : List Tuple, (∀ t ∈ rs, p.right_index < t.field_vals.length) →
      (matchesSpec p cur rs = [] ∧ Join.scanRight p cur rs = some none) ∨
      (∃ out rest, Join.scanRight p cur rs = some (some (out, rest)) ∧
        (∀ t ∈ rest, t ∈ rs) ∧
        matchesSpec p cur rs = out :: matchesSpec p cur rest) := by
  intro rs
  induction rs with
  | nil => intro _; exact Or.inl ⟨rfl, rfl⟩
  | cons t ts ih =>
    intro hrs
    obtain ⟨b, hb⟩ := cmp_eq_some hc (hrs t (List.mem_cons_self t ts))
    cases b with
    | true =>
      refine Or.inr ⟨cur.merge t, ts, ?_, fun u hu => List.mem_cons_of_mem _ hu, ?_⟩
      · simp [Join.scanRight, hb]
      · simp [matchesSpec, List.filterMap_cons, hb]
    | false =>
      have step : Join.scanRight p cur (t :: ts) = Join.scanRight p cur ts := by
        simp [Join.scanRight, hb]
      have mspec : matchesSpec p cur (t :: ts) = matchesSpec p cur ts := by
        simp [matchesSpec, List.filterMap_cons, hb]
      rcases ih (fun u hu => hrs u (List.mem_cons_of_mem _ hu)) with ⟨h1, h2⟩ | ⟨out, rest, h1, h2, h3⟩
      · exact Or.inl ⟨mspec.trans h1, step.trans h2⟩
      · exact Or.inr ⟨out, rest, step.trans h1,
          fun u hu => List.mem_cons_of_mem _ (h2 u hu), mspec.trans h3⟩

theorem nextGo_spec (p : JoinPredicate) (rightAll : List Tuple)
    (hra : ∀ t ∈ rightAll, p.right_index < t.field_vals.length) :
    ∀ (leftRem : List Tuple) (cur : Tuple) (rightRem : List Tuple),
      p.left_index < cur.field_vals.length →
      (∀ t ∈ leftRem, p.left_index < t.field_vals.length) →
      (∀ t ∈ rightRem, p.right_index < t.field_vals.length) →
      (matchesSpec p cur rightRem ++ crossJoinSpec p leftRem rightAll = [] ∧
        ∃ st, Join.nextGo p rightAll leftRem cur rightRem = some (none, st)) ∨
      (∃ out l' c' r', Join.nextGo p rightAll leftRem cur rightRem = some (some out, l', c', r') ∧
        matchesSpec p cur rightRem ++ crossJoinSpec p leftRem rightAll =
          out :: (matchesSpec p c' r' ++ crossJoinSpec p l' rightAll) ∧
        p.left_index < c'.field_vals.length ∧
        (∀ t ∈ l', p.left_index < t.field_vals.length) ∧
        (∀ t ∈ r', p.right_index < t.field_vals.length)) := by
  intro leftRem
  induction leftRem with
  | nil =>
    intro cur rightRem hc _ hrr
    rcases scanRight_spec p cur hc rightRem hrr with ⟨h1, h2⟩ | ⟨out, rest, h1, h2, h3⟩
    · exact Or.inl ⟨by simp [h1, crossJoinSpec_nil], ⟨([], cur, []), by simp [Join.nextGo, h2]⟩⟩
    · refine Or.inr ⟨out, [], cur, rest, by simp [Join.nextGo, h1], ?_, hc, by simp, ?_⟩
      · simp [crossJoinSpec_nil, h3]
      · exact fun u hu => hrr u (h2 u hu)
  | cons t ls ih =>
    intro cur rightRem hc hlr hrr
    rcases scanRight_spec p cur hc rightRem hrr with ⟨h1, h2⟩ | ⟨out, rest, h1, h2, h3⟩
    · have step : Join.nextGo p rightAll (t :: ls) cur rightRem =
          Join.nextGo p rightAll ls t rightAll := by
        simp [Join.nextGo, h2]
      have ht := hlr t (List.mem_cons_self t ls)
      have hls := fun u hu => hlr u (List.mem_cons_of_mem _ hu)
      rcases ih t rightAll ht hls hra with ⟨g1, g2⟩ | ⟨out, l', c', r', g1, g2, g3, g4, g5⟩
      · refine Or.inl ⟨?_, by rw [step]; exact g2⟩
        rw [h1, crossJoinSpec_cons]
        simpa using g2.elim (fun st h => g1)
      · refine Or.inr ⟨out, l', c', r', by rw [step]; exact g1, ?_, g3, g4, g5⟩
        rw [h1, crossJoinSpec_cons]
        simpa using g2
    · refine Or.inr ⟨out, t :: ls, cur, rest, by simp [Join.nextGo, h1], ?_, hc, hlr, ?_⟩
      · rw [h3]; simp
      · exact fun u hu => hrr u (h2 u hu)

theorem next_spec {j : Join} (hInv : j.Inv) :
    (j.total = [] ∧ ∃ j', j.next = some (none, j')) ∨
    (∃ out j', j.next = some (some out, j') ∧ j.total = out :: j'.total ∧ j'.Inv ∧
      j'.predicate = j.predicate ∧ j'.left_child = j.left_child ∧
      j'.right_child = j.right_child) := by
  obtain ⟨hc, hlr, hrr, hra⟩ := hInv
  rcases nextGo_spec j.predicate j.right_child hra j.left_rem j.left_tuple_cur j.right_rem
      hc hlr hrr with ⟨h1, st, h2⟩ | ⟨out, l', c', r', h1, h2, h3, h4, h5⟩
  · exact Or.inl ⟨h1,
      ⟨{ j with left_rem := st.1, left_tuple_cur := st.2.1, right_rem := st.2.2 },
        by simp [Join.next, h2]⟩⟩
  · exact Or.inr ⟨out, { j with left_rem := l', left_tuple_cur := c', right_rem := r' },
      by simp [Join.next, h1], h2, ⟨h3, h4, h5, hra⟩, rfl, rfl, rfl⟩

theorem drain_spec : ∀ (fuel : Nat) (j : Join), j.Inv → j.total.length < fuel →
    Join.drain fuel j = some j.total := by
  intro fuel
  induction fuel with
  | zero => intro j _ h; omega
  | succ n ih =>
    intro j hInv hlen
    rcases next_spec hInv with ⟨h1, j', h2⟩ | ⟨out, j', h1, h2, h3, _, _, _⟩
    · simp [Join.drain, h2, h1]
    · have : j'.total.length < n := by
        have := congrArg List.length h2
        simp at this
        omega
      simp [Join.drain, h1, ih j' h3 this, h2]

/-- C1 (amended: the left child must be non-empty — otherwise `Join::open`
panics on `next()?.unwrap()` — the predicate's field indices must be in range,
and enough `next` calls must be made): fully draining the nested-loop join
(open, then repeated next until None) yields exactly the multiset of
concatenations `left_tuple.merge(right_tuple)` over all pairs of the cross
product of the two input streams that satisfy the join predicate, with
multiplicity. -/
theorem nestedLoop_drain_eq_cross (p : JoinPredicate) (left right : List Tuple) (fuel : Nat)
    (hne : left ≠ [])
    (hl : ∀ t ∈ left, p.left_index < t.field_vals.length)
    (hr : ∀ t ∈ right, p.right_index < t.field_vals.length)
    (hfuel : (crossJoinSpec p left right).length < fuel) :
    ((Join.openOp p left right).bind (Join.drain fuel)).map
        (fun res => (res : Multiset Tuple)) =
      some ((crossJoinSpec p left right : List Tuple) : Multiset Tuple) := by
  cases left with
  | nil => exact absurd rfl hne
  | cons t ls =>
    have hopen : Join.openOp p (t :: ls) right = some ⟨p, t :: ls, right, ls, t, right⟩ := rfl
    set j0 : Join := ⟨p, t :: ls, right, ls, t, right⟩ with hj0
    have htot : j0.total = crossJoinSpec p (t :: ls) right := by
      rw [crossJoinSpec_cons]; rfl
    have hInv : j0.Inv :=
      ⟨hl t (List.mem_cons_self t ls), fun u hu => hl u (List.mem_cons_of_mem _ hu), hr, hr⟩
    have hdr := drain_spec fuel j0 hInv (by rw [htot]; exact hfuel)
    rw [hopen]
    simp [hdr, htot]

/-- C1 witness: a concrete non-empty instance of the amended claim. -/
theorem nestedLoop_drain_eq_cross_witness :
    (create_tuple_list [[1, 7], [2, 8]] ≠ []) ∧
    (((Join.openOp (JoinPredicate.new .Equals 0 0) (create_tuple_list [[1, 7], [2, 8]])
          (create_tuple_list [[1, 5]])).bind (Join.drain 3)).map
        (fun res => (res : Multiset Tuple)) =
      some ((crossJoinSpec (JoinPredicate.new .Equals 0 0) (create_tuple_list [[1, 7], [2, 8]])
          (create_tuple_list [[1, 5]]) : List Tuple) : Multiset Tuple)) :=
  ⟨by decide,
    nestedLoop_drain_eq_cross (JoinPredicate.new .Equals 0 0)
      (create_tuple_list [[1, 7], [2, 8]]) (create_tuple_list [[1, 5]]) 3
      (by decide) (by decide) (by decide) (by decide)⟩

/-- C1 counterexample: with an empty left child the claim as stated fails —
`Join::open` panics on `self.left_child.next()?.unwrap()` instead of the drain
producing the (empty) filtered cross product. -/
theorem nestedLoop_emptyLeft_cx :
    ((Join.openOp (JoinPredicate.new .Equals 0 0) []
          [Tuple.new [.IntField 1]]).bind (Join.drain 5)).map
        (fun res => (res : Multiset Tuple)) ≠
      some ((crossJoinSpec (JoinPredicate.new .Equals 0 0) []
          [Tuple.new [.IntField 1]] : List Tuple) : Multiset Tuple) := by
  decide

/-! ## Claim C2: `SortMergeJoin::next` always signals end-of-stream -/

/-- C2: for every opened `SortMergeJoin` (either strategy), whenever a call to
`next` returns (does not panic) it returns `Ok(None)` — always end-of-stream —
while eagerly performing the entire parallel merge-join (`joinAll`, one
`join_m_way`/`join_m_pass` worker per left run) and storing the computed
result tuples only into the internal `l3_runs_l` field; everything else in the
state, including `l3_runs_r`, is unchanged, and no tuple is ever emitted
through the per-call output. -/
theorem sortMerge_next_eos (s : SortMergeJoin) (out : Option Tuple) (s' : SortMergeJoin)
    (h : s.next = some (out, s')) :
    out = none ∧ SortMergeJoin.joinAll s = some s'.l3_runs_l ∧
      s'.l3_runs_r = s.l3_runs_r ∧ s'.predicate = s.predicate ∧
      s'.sort_merge_method = s.sort_merge_method ∧ s'.min_r = s.min_r ∧
      s'.max_r = s.max_r ∧ s'.is_open = s.is_open := by
  unfold SortMergeJoin.next at h
  cases hjj : SortMergeJoin.joinAll s with
  | none => rw [hjj] at h; cases h
  | some joined =>
    rw [hjj] at h
    injection h with h1
    injection h1 with h2 h3
    subst h2
    subst h3
    exact ⟨rfl, rfl, rfl, rfl, rfl, rfl, rfl, rfl⟩

/-- C2 witness: the theorem applied to a concrete opened state (an m-way state
produced by `openOp` on the repository test scenario is evaluated separately
in the cross-validation examples; here, a small opened m-pass state). -/
theorem sortMerge_next_eos_witness :
    ((⟨JoinPredicate.new .Equals 1 1, true, 2,
        [create_tuple_list [[1, 2]]], [create_tuple_list [[5, 2]]],
        SortMergeJoin.minSentinel, SortMergeJoin.maxSentinel⟩ : SortMergeJoin).next =
      some (none, ⟨JoinPredicate.new .Equals 1 1, true, 2,
        [create_tuple_list [[1, 2, 5, 2]]], [create_tuple_list [[5, 2]]],
        SortMergeJoin.minSentinel, SortMergeJoin.maxSentinel⟩)) ∧
    ((none : Option Tuple) = none ∧
      SortMergeJoin.joinAll
          ⟨JoinPredicate.new .Equals 1 1, true, 2,
            [create_tuple_list [[1, 2]]], [create_tuple_list [[5, 2]]],
            SortMergeJoin.minSentinel, SortMergeJoin.maxSentinel⟩ =
        some (⟨JoinPredicate.new .Equals 1 1, true, 2,
            [create_tuple_list [[1, 2, 5, 2]]], [create_tuple_list [[5, 2]]],
            SortMergeJoin.minSentinel, SortMergeJoin.maxSentinel⟩ :
          SortMergeJoin).l3_runs_l ∧
      (⟨JoinPredicate.new .Equals 1 1, true, 2,
          [create_tuple_list [[1, 2, 5, 2]]], [create_tuple_list [[5, 2]]],
          SortMergeJoin.minSentinel, SortMergeJoin.maxSentinel⟩ :
        SortMergeJoin).l3_runs_r = [create_tuple_list [[5, 2]]] ∧
      JoinPredicate.new .Equals 1 1 = JoinPredicate.new .Equals 1 1 ∧
      (2 : Int) = 2 ∧ SortMergeJoin.minSentinel = SortMergeJoin.minSentinel ∧
      SortMergeJoin.maxSentinel = SortMergeJoin.maxSentinel ∧ true = true) :=
  ⟨by decide,
    sortMerge_next_eos _ none _ (by decide)⟩

/-! ## Claim C4: `HashEqJoin::new` does not validate the operator -/

/-- C4 (code bug, claim is the spec's stated intent): `HashEqJoin::new`
performs no validation at all — it accepts any comparison operator, returning
a closed join that stores the non-equals operator unchanged instead of failing
with a validation error. -/
theorem hashEq_new_accepts_nonEquals (left right : List Tuple) :
    (HashEqJoin.new .GreaterThan 0 0 left right).predicate.op =
        SimplePredicateOp.GreaterThan ∧
      (HashEqJoin.new .GreaterThan 0 0 left right).is_open = false :=
  ⟨rfl, rfl⟩

/-! ## Claim C6: `SortMergeJoin::open` panics on short final runs -/

/-- C6 (code bug): contrary to the claim that `open` succeeds for every pair
of finite child streams (with a possibly-shorter final run), `open` panics
whenever a side's length is not a positive multiple of 4: the splitting loop
pushes the leftover accumulator as a final run (even empty), and
`sort_run_l1` then indexes `run[0]`..`run[3]` out of bounds.  Shown here for
an empty left side and for a single-tuple left side, any right side. -/
theorem sortMerge_open_short_run_panics (p : JoinPredicate) (method : Int)
    (right : List Tuple) :
    SortMergeJoin.openOp p method [] right = none ∧
      SortMergeJoin.openOp p method [Tuple.new [.IntField 0, .IntField 0]] right = none :=
  ⟨rfl, rfl⟩

/-! ## Claim C10: first `next` after `open` panics when no right key matches
and `IntField(0)` is not a key of the table -/

theorem seekMatch_none {ht : List (Field × List Tuple)} {ri : Nat} :
    ∀ rs : List Tuple, (∀ t ∈ rs, ∃ f, t.get_field ri = some f ∧ htLookup ht f = none) →
      seekMatch ht ri rs = some none := by
  intro rs
  induction rs with
  | nil => intro _; rfl
  | cons t ts ih =>
    intro h
    obtain ⟨f, hf, hlook⟩ := h t (List.mem_cons_self t ts)
    have : seekMatch ht ri (t :: ts) = seekMatch ht ri ts := by
      simp [seekMatch, hf, hlook]
    rw [this]
    exact ih fun u hu => h u (List.mem_cons_of_mem _ hu)

/-- C10: after `HashEqJoin::open`, if no right tuple's join-field value is a
key of the built table and `Field::IntField(0)` (the sentinel initial
`field_cur`) is not a key either — e.g. when the left child is empty — then
the first `next` panics on the `self.ht[&self.field_cur]` indexing instead of
returning `Ok(None)`. -/
theorem hashEq_next_missing_key_panics (op : SimplePredicateOp) (li ri : Nat)
    (left right : List Tuple) (ht : List (Field × List Tuple))
    (hbuild : buildHt li left [] = some ht)
    (h0 : htLookup ht (Field.IntField 0) = none)
    (hvr : ∀ t ∈ right, ∃ f, t.get_field ri = some f ∧ htLookup ht f = none) :
    ∃ j0, (HashEqJoin.new op li ri left right).openOp = some j0 ∧
      j0.field_cur = Field.IntField 0 ∧ j0.ht = ht ∧ j0.next = none := by
  refine ⟨{ predicate := JoinPredicate.new op li ri, left_child := left,
            right_child := right, is_open := true, ht := ht,
            field_cur := Field.IntField 0, index_cur := 0,
            right_tuple_cur := Tuple.new [], left_rem := [], right_rem := [] },
    ?_, rfl, rfl, ?_⟩
  · unfold HashEqJoin.openOp HashEqJoin.new
    simp only
    rw [show (JoinPredicate.new op li ri).left_index = li from rfl, hbuild]
    unfold HashEqJoin.partOpen
    simp only
    rw [show (JoinPredicate.new op li ri).right_index = ri from rfl, seekMatch_none right hvr]
  · unfold HashEqJoin.next
    simp only
    rw [h0]

/-- C10 witness: empty left child, one right tuple with key 7. -/
theorem hashEq_next_missing_key_panics_witness :
    (buildHt 0 ([] : List Tuple) [] = some []) ∧
    (htLookup [] (Field.IntField 0) = none) ∧
    (∀ t ∈ [Tuple.new [.IntField 7]], ∃ f, t.get_field 0 = some f ∧ htLookup [] f = none) ∧
    (∃ j0, (HashEqJoin.new .Equals 0 0 [] [Tuple.new [.IntField 7]]).openOp = some j0 ∧
      j0.field_cur = Field.IntField 0 ∧ j0.ht = [] ∧ j0.next = none) :=
  ⟨rfl, rfl, by decide,
    hashEq_next_missing_key_panics .Equals 0 0 [] [Tuple.new [.IntField 7]] []
      rfl rfl (by decide)⟩

/-! ## Claim C5: `merge_1_to_2` on an odd number of runs -/

theorem twoStepInduction {P : List (List Tuple) → Prop} (h0 : P []) (h1 : ∀ r, P [r])
    (h2 : ∀ r1 r2 rest, P rest → P (r1 :: r2 :: rest)) : ∀ l, P l := by
  have key : ∀ (n : Nat) (l : List (List Tuple)), l.length ≤ n → P l := by
    intro n
    induction n with
    | zero =>
      intro l h
      cases l with
      | nil => exact h0
      | cons r l' => simp at h
    | succ n ih =>
      intro l h
      cases l with
      | nil => exact h0
      | cons r1 l' =>
        cases l' with
        | nil => exact h1 r1
        | cons r2 rest =>
          refine h2 r1 r2 rest (ih rest ?_)
          simp [List.length_cons] at h
          omega
  exact fun l => key l.length l (le_refl _)

theorem merge12Go_acc : ∀ (n : Nat) (runs : List (List Tuple)), runs.length ≤ n →
    ∀ (c : Nat), c % 2 = 1 → ∀ res, merge12Go runs c [] res = res ++ merge_1_to_2 runs := by
  intro n
  induction n with
  | zero =>
    intro runs h c _ res
    cases runs with
    | nil => simp [merge12Go, merge_1_to_2]
    | cons r l' => simp at h
  | succ n ih =>
    intro runs h c hc res
    cases runs with
    | nil => simp [merge12Go, merge_1_to_2]
    | cons r1 l' =>
      cases l' with
      | nil =>
        have hcne : c % 2 ≠ 0 := by omega
        simp [merge12Go, merge_1_to_2, hcne]
      | cons r2 rest =>
        have hcne : c % 2 ≠ 0 := by omega
        have hc1 : ¬ ((c + 1) % 2 ≠ 0) := by omega
        have hc2 : (c + 2) % 2 = 1 := by omega
        have hrest : rest.length ≤ n := by
          simp [List.length_cons] at h; omega
        have lhs : merge12Go (r1 :: r2 :: rest) c [] res =
            merge12Go rest (c + 1 + 1) [] (res ++ [r1 ++ r2.reverse]) := by
          rw [merge12Go, if_pos hcne, merge12Go, if_neg hc1]
          simp
        have rhs : merge_1_to_2 (r1 :: r2 :: rest) =
            merge12Go rest 3 [] [r1 ++ r2.reverse] := by
          unfold merge_1_to_2
          rw [merge12Go, if_pos (by omega : (1 : Nat) % 2 ≠ 0),
            merge12Go, if_neg (by omega : ¬ ((1 + 1 : Nat) % 2 ≠ 0))]
          simp
        rw [lhs, ih rest hrest (c + 1 + 1) (by omega) _, rhs,
          ih rest hrest 3 (by omega) _]
        simp

theorem merge_1_to_2_pair (r1 r2 : List Tuple) (rest : List (List Tuple)) :
    merge_1_to_2 (r1 :: r2 :: rest) = (r1 ++ r2.reverse) :: merge_1_to_2 rest := by
  have rhs : merge_1_to_2 (r1 :: r2 :: rest) = merge12Go rest 3 [] [r1 ++ r2.reverse] := by
    unfold merge_1_to_2
    rw [merge12Go, if_pos (by omega : (1 : Nat) % 2 ≠ 0),
      merge12Go, if_neg (by omega : ¬ ((1 + 1 : Nat) % 2 ≠ 0))]
    simp
  rw [rhs, merge12Go_acc rest.length rest (le_refl _) 3 (by omega)]
  simp

theorem merge_1_to_2_single (r : List Tuple) : merge_1_to_2 [r] = [] := rfl

theorem merge_1_to_2_nil : merge_1_to_2 [] = [] := rfl

theorem merge_1_to_2_len8 : ∀ runs : List (List Tuple),
    (∀ r ∈ runs, r.length = 4) → ∀ r ∈ merge_1_to_2 runs, r.length = 8 := by
  refine twoStepInduction (by simp [merge_1_to_2_nil]) (by simp [merge_1_to_2_single]) ?_
  intro r1 r2 rest ih h r hr
  rw [merge_1_to_2_pair] at hr
  rcases List.mem_cons.mp hr with h' | h'
  · subst h'
    have h1 := h r1 (List.mem_cons_self _ _)
    have h2 := h r2 (List.mem_cons_of_mem _ (List.mem_cons_self _ _))
    simp [h1, h2]
  · exact ih (fun u hu => h u (List.mem_cons_of_mem _ (List.mem_cons_of_mem _ hu))) r h'

theorem list_len4 {α : Type} {l : List α} (h : l.length = 4) :
    ∃ a b c d, l = [a, b, c, d] := by
  match l, h with
  | [a, b, c, d], _ => exact ⟨a, b, c, d, rfl⟩

/-- Explicit value of the level-1 network on a 4-tuple run. -/
theorem sort_run_l1_eq (t0 t1 t2 t3 : Tuple) (idx : Nat) :
    sort_run_l1 [t0, t1, t2, t3] idx = some
      [compare_min (compare_min t0 t1 idx) (compare_min t2 t3 idx) idx,
       compare_min (compare_min (compare_max t0 t1 idx) (compare_max t2 t3 idx) idx)
         (compare_max (compare_min t0 t1 idx) (compare_min t2 t3 idx) idx) idx,
       compare_max (compare_min (compare_max t0 t1 idx) (compare_max t2 t3 idx) idx)
         (compare_max (compare_min t0 t1 idx) (compare_min t2 t3 idx) idx) idx,
       compare_max (compare_max t0 t1 idx) (compare_max t2 t3 idx) idx] := rfl

theorem sort_run_l1_exists {run : List Tuple} (h : run.length = 4) (idx : Nat) :
    ∃ out, sort_run_l1 run idx = some out ∧ out.length = 4 := by
  obtain ⟨a, b, c, d, rfl⟩ := list_len4 h
  exact ⟨_, sort_run_l1_eq a b c d idx, rfl⟩

theorem cswapL2_exists (run : List Tuple) (i j : Nat) (hi : i < run.length)
    (hj : j < run.length) (idx : Nat) :
    ∃ out, cswapL2 run i j idx = some out ∧ out.length = run.length := by
  have h1 : run[i]? = some run[i] := List.getElem?_eq_getElem hi
  have h2 : run[j]? = some run[j] := List.getElem?_eq_getElem hj
  by_cases hc : compare_max run[i] run[j] idx = run[i]
  · exact ⟨(run.set i run[j]).set j run[i], by simp [cswapL2, h1, h2, hc], by simp⟩
  · exact ⟨run, by simp [cswapL2, h1, h2, hc], rfl⟩

theorem sort_run_l2_exists {run : List Tuple} (h : run.length = 8) (idx : Nat) :
    ∃ out, sort_run_l2 run idx = some out ∧ out.length = 8 := by
  obtain ⟨o1, e1, l1⟩ := cswapL2_exists run 3 7 (by omega) (by omega) idx
  obtain ⟨o2, e2, l2⟩ := cswapL2_exists o1 2 6 (by omega) (by omega) idx
  obtain ⟨o3, e3, l3⟩ := cswapL2_exists o2 1 5 (by omega) (by omega) idx
  obtain ⟨o4, e4, l4⟩ := cswapL2_exists o3 0 4 (by omega) (by omega) idx
  obtain ⟨o5, e5, l5⟩ := cswapL2_exists o4 0 2 (by omega) (by omega) idx
  obtain ⟨o6, e6, l6⟩ := cswapL2_exists o5 5 7 (by omega) (by omega) idx
  obtain ⟨o7, e7, l7⟩ := cswapL2_exists o6 1 3 (by omega) (by omega) idx
  obtain ⟨o8, e8, l8⟩ := cswapL2_exists o7 4 6 (by omega) (by omega) idx
  obtain ⟨o9, e9, l9⟩ := cswapL2_exists o8 0 1 (by omega) (by omega) idx
  obtain ⟨o10, e10, l10⟩ := cswapL2_exists o9 2 3 (by omega) (by omega) idx
  obtain ⟨o11, e11, l11⟩ := cswapL2_exists o10 4 5 (by omega) (by omega) idx
  obtain ⟨o12, e12, l12⟩ := cswapL2_exists o11 6 7 (by omega) (by omega) idx
  refine ⟨o12, ?_, by omega⟩
  simp [sort_run_l2, e1, e2, e3, e4, e5, e6, e7, e8, e9, e10, e11, e12]

theorem splitGo_all4 : ∀ (ts temp : List Tuple) (runs : List (List Tuple)),
    (∀ r ∈ runs, r.length = 4) → 1 ≤ temp.length → temp.length ≤ 4 →
    (temp.length + ts.length) % 4 = 0 →
    ∀ r ∈ SortMergeJoin.splitGo ts temp runs, r.length = 4 := by
  intro ts
  induction ts with
  | nil =>
    intro temp runs hruns h1 h4 hmod r hr
    unfold SortMergeJoin.splitGo at hr
    rcases List.mem_append.mp hr with h' | h'
    · exact hruns r h'
    · simp at h'
      subst h'
      simp at hmod
      omega
  | cons t ts ih =>
    intro temp runs hruns h1 h4 hmod r hr
    unfold SortMergeJoin.splitGo at hr
    by_cases hlen : temp.length = 4
    · rw [if_pos hlen] at hr
      refine ih [t] (runs ++ [temp]) ?_ (by simp) (by simp) ?_ r hr
      · intro u hu
        rcases List.mem_append.mp hu with h' | h'
        · exact hruns u h'
        · simp at h'; subst h'; exact hlen
      · simp at hmod ⊢; omega
    · rw [if_neg hlen] at hr
      refine ih (temp ++ [t]) runs hruns (by simp) (by simp; omega) ?_ r hr
      simp at hmod ⊢
      omega

theorem splitRuns4_all4 {ts : List Tuple} (hne : ts ≠ []) (hmod : ts.length % 4 = 0) :
    ∀ r ∈ SortMergeJoin.splitRuns4 ts, r.length = 4 := by
  cases ts with
  | nil => exact absurd rfl hne
  | cons t ts' =>
    have step : SortMergeJoin.splitRuns4 (t :: ts') =
        SortMergeJoin.splitGo ts' [t] [] := rfl
    rw [step]
    refine splitGo_all4 ts' [t] [] (by simp) (by simp) (by simp) ?_
    simp at hmod ⊢
    omega

theorem mapM_option_some {α β : Type} {f : α → Option β} {Q : β → Prop} :
    ∀ l : List α, (∀ x ∈ l, ∃ y, f x = some y ∧ Q y) →
      ∃ out, l.mapM f = some out ∧ (∀ y ∈ out, Q y) ∧ out.length = l.length := by
  intro l
  induction l with
  | nil => exact fun _ => ⟨[], rfl, by simp, rfl⟩
  | cons x xs ih =>
    intro h
    obtain ⟨y, hy, hQ⟩ := h x (List.mem_cons_self _ _)
    obtain ⟨out, hout, hQs, hlen⟩ := ih fun u hu => h u (List.mem_cons_of_mem _ hu)
    refine ⟨y :: out, by rw [List.mapM_cons, hy, hout]; rfl, ?_, by simp [hlen]⟩
    intro z hz
    rcases List.mem_cons.mp hz with h' | h'
    · exact h' ▸ hQ
    · exact hQs z h'

theorem list_len1 {α : Type} {l : List α} (h : l.length = 1) : ∃ a, l = [a] := by
  match l, h with
  | [a], _ => exact ⟨a, rfl⟩

/-- C5 (amended: a stream of fewer than 4 tuples makes `open` panic in
level-1 sorting, so "at most 4 tuples" must read "exactly 4 tuples"):
(i) for every list of level-1 runs of odd length n, `merge_1_to_2` returns
(n−1)/2 level-2 runs containing exactly (as a multiset) the tuples of the
first n−1 input runs — every tuple occurrence of the final input run is
dropped; (ii) in particular, with the m-pass strategy, a left child of
exactly 4 tuples (a single level-1 run) and a right child whose length is a
positive multiple of 4, the join opens with no left level-2/3 runs at all and
produces an empty result. -/
theorem merge_1_to_2_odd_spec :
    (∀ runs : List (List Tuple), runs.length % 2 = 1 →
      (merge_1_to_2 runs).length = (runs.length - 1) / 2 ∧
      ((merge_1_to_2 runs).flatten : Multiset Tuple) =
        ((runs.take (runs.length - 1)).flatten : Multiset Tuple)) ∧
    (∀ (p : JoinPredicate) (method : Int) (left right : List Tuple),
      method ≠ 1 → left.length = 4 → right.length % 4 = 0 → right ≠ [] →
      ∃ s s', SortMergeJoin.openOp p method left right = some s ∧
        s.l3_runs_l = [] ∧ s.next = some (none, s') ∧
        SortMergeJoin.results s' = []) := by
  constructor
  · refine twoStepInduction (by intro h; simp at h) ?_ ?_
    · intro r _
      simp [merge_1_to_2_single]
    · intro r1 r2 rest ih h
      have hrest : rest.length % 2 = 1 := by simp at h; omega
      obtain ⟨ihl, ihm⟩ := ih hrest
      constructor
      · rw [merge_1_to_2_pair]
        simp only [List.length_cons, ihl]
        omega
      · rw [merge_1_to_2_pair]
        have htake : (r1 :: r2 :: rest).take ((r1 :: r2 :: rest).length - 1) =
            r1 :: r2 :: rest.take (rest.length - 1) := by
          have h1 : rest.length ≥ 1 := by omega
          simp only [List.length_cons]
          rw [show rest.length + 1 + 1 - 1 = (rest.length - 1) + 1 + 1 by omega]
          simp [List.take_cons]
        rw [htake]
        rw [Multiset.coe_eq_coe] at ihm ⊢
        simp only [List.flatten_cons, List.append_assoc]
        exact List.Perm.append_left r1 ((r2.reverse_perm).append ihm)
  · intro p method left right hm h4 hmod hne
    obtain ⟨a, b, c, d, rfl⟩ := list_len4 h4
    obtain ⟨L1, hL1, _, hL1len⟩ :=
      mapM_option_some (f := fun run => sort_run_l1 run p.left_index)
        (Q := fun r => r.length = 4) (SortMergeJoin.splitRuns4 [a, b, c, d])
        (fun r hr => by
          have : r = [a, b, c, d] := by
            have : SortMergeJoin.splitRuns4 [a, b, c, d] = [[a, b, c, d]] := rfl
            rw [this] at hr
            simpa using hr
          subst this
          exact sort_run_l1_exists h4 p.left_index)
    obtain ⟨x, rfl⟩ := list_len1 (hL1len.trans rfl)
    have hsortL : sort_runs (SortMergeJoin.splitRuns4 [a, b, c, d]) p.left_index 1 =
        some [x] := by
      rw [sort_runs, if_pos rfl]; exact hL1
    have hall4 := splitRuns4_all4 hne hmod
    obtain ⟨R1, hR1, hR1Q, _⟩ :=
      mapM_option_some (f := fun run => sort_run_l1 run p.right_index)
        (Q := fun r => r.length = 4) (SortMergeJoin.splitRuns4 right)
        (fun r hr => sort_run_l1_exists (hall4 r hr) p.right_index)
    have hsortR : sort_runs (SortMergeJoin.splitRuns4 right) p.right_index 1 = some R1 := by
      rw [sort_runs, if_pos rfl]; exact hR1
    obtain ⟨R2, hR2, _, _⟩ :=
      mapM_option_some (f := fun run => sort_run_l2 run p.right_index)
        (Q := fun r => r.length = 8) (merge_1_to_2 R1)
        (fun r hr => sort_run_l2_exists (merge_1_to_2_len8 R1 hR1Q r hr) p.right_index)
    have hsortR2 : sort_runs (merge_1_to_2 R1) p.right_index 2 = some R2 := by
      rw [sort_runs, if_neg (by omega)]; exact hR2
    refine ⟨⟨p, true, method, [], R2, SortMergeJoin.minSentinel, SortMergeJoin.maxSentinel⟩,
      ⟨p, true, method, [], R2, SortMergeJoin.minSentinel, SortMergeJoin.maxSentinel⟩,
      ?_, rfl, ?_, rfl⟩
    · simp only [SortMergeJoin.openOp, hsortL, hsortR, Option.bind_eq_bind,
        Option.some_bind, merge_1_to_2_single,
        show sort_runs [] p.left_index 2 = some [] from rfl, hsortR2]
      rw [if_neg hm]
      rfl
    · rw [SortMergeJoin.next, SortMergeJoin.joinAll]
      simp only [if_neg hm]
      rw [List.mapM_nil]
      rfl

/-- C5 witness: part (i) at a single concrete run, part (ii) at a concrete
4-tuple left child and 4-tuple right child under m-pass. -/
theorem merge_1_to_2_odd_spec_witness :
    ((merge_1_to_2 [create_tuple_list [[1, 2]]]).length =
        (([create_tuple_list [[1, 2]]] : List (List Tuple)).length - 1) / 2 ∧
      ((merge_1_to_2 [create_tuple_list [[1, 2]]]).flatten : Multiset Tuple) =
        ((([create_tuple_list [[1, 2]]] : List (List Tuple)).take
          (([create_tuple_list [[1, 2]]] : List (List Tuple)).length - 1)).flatten :
            Multiset Tuple)) ∧
    (∃ s s', SortMergeJoin.openOp (JoinPredicate.new .Equals 0 0) 2
        (create_tuple_list [[1], [2], [3], [4]])
        (create_tuple_list [[5], [6], [7], [8]]) = some s ∧
      s.l3_runs_l = [] ∧ s.next = some (none, s') ∧
      SortMergeJoin.results s' = []) :=
  ⟨merge_1_to_2_odd_spec.1 [create_tuple_list [[1, 2]]] (by decide),
    merge_1_to_2_odd_spec.2 (JoinPredicate.new .Equals 0 0) 2
      (create_tuple_list [[1], [2], [3], [4]]) (create_tuple_list [[5], [6], [7], [8]])
      (by decide) (by decide) (by decide) (by decide)⟩

/-- C5 counterexample: a left child of 2 tuples produces a single level-1 run,
but the claim's "such a side yields an empty join result" fails — the pipeline
panics in level-1 sorting instead of driving to an empty result. -/
theorem sortMerge_small_side_cx :
    ¬ (SortMergeJoin.drive (JoinPredicate.new .Equals 0 0) 2
        (create_tuple_list [[1], [2]]) (create_tuple_list [[1], [2], [3], [4]]) =
      some []) := by decide

/-! ## Claim C7: the level-1 network sorts the join keys of any 4-tuple run -/

theorem keyAt_compare_min (a b : Tuple) (idx : Nat) :
    (compare_min a b idx).keyAt idx = min (a.keyAt idx) (b.keyAt idx) := by
  unfold compare_min
  rcases lt_or_ge (a.keyAt idx) (b.keyAt idx) with h | h
  · rw [if_pos h, min_eq_left h.le]
  · rw [if_neg (not_lt.mpr h), min_eq_right h]

theorem keyAt_compare_max (a b : Tuple) (idx : Nat) :
    (compare_max a b idx).keyAt idx = max (a.keyAt idx) (b.keyAt idx) := by
  unfold compare_max
  rcases lt_or_ge (b.keyAt idx) (a.keyAt idx) with h | h
  · rw [if_pos h, max_eq_left h.le]
  · rw [if_neg (not_lt.mpr h), max_eq_right h]

/-- The 5-comparator network (0,1),(2,3),(0,2),(1,3),(1,2), read off on keys
as min/max expressions, sorts any 4 values of a linear order. -/
theorem net4_sorted {α : Type} [LinearOrder α] (a b c d : α) :
    min (min a b) (min c d) ≤ min (min (max a b) (max c d)) (max (min a b) (min c d)) ∧
    min (min (max a b) (max c d)) (max (min a b) (min c d)) ≤
      max (min (max a b) (max c d)) (max (min a b) (min c d)) ∧
    max (min (max a b) (max c d)) (max (min a b) (min c d)) ≤ max (max a b) (max c d) :=
  ⟨le_min (min_le_min min_le_max min_le_max) min_le_max,
   min_le_max,
   max_le min_le_max (max_le_max min_le_max min_le_max)⟩

theorem min_max_cons {α : Type} [LinearOrder α] (x y : α) (s : Multiset α) :
    (min x y) ::ₘ (max x y) ::ₘ s = x ::ₘ y ::ₘ s := by
  rcases le_total x y with h | h
  · rw [min_eq_left h, max_eq_right h]
  · rw [min_eq_right h, max_eq_left h, Multiset.cons_swap]

/-- C7 (amended: the network emits 4 tuples whose join keys are the input's 4
keys in non-decreasing order, but — because `compare_min`/`compare_max` both
return their second argument on equal keys — an equal-key comparison may
duplicate the later tuple and drop the earlier one, so the output tuples need
not be a permutation of the input tuples; only the key multiset is
preserved): `sort_run_l1`, applied to any 4 tuples and a valid join-key
index, succeeds and outputs 4 tuples whose join-key fields are non-decreasing
and form exactly the input's key multiset, via the 5 compare-exchange steps
(0,1),(2,3),(0,2),(1,3),(1,2). -/
theorem sort_run_l1_sorts_keys (t0 t1 t2 t3 : Tuple) (idx : Nat) (k0 k1 k2 k3 : Field)
    (h0 : t0.get_field idx = some k0) (h1 : t1.get_field idx = some k1)
    (h2 : t2.get_field idx = some k2) (h3 : t3.get_field idx = some k3) :
    ∃ out, sort_run_l1 [t0, t1, t2, t3] idx = some out ∧
      List.Sorted (fun u v : Tuple => u.keyAt idx ≤ v.keyAt idx) out ∧
      (out.map (fun t => t.keyAt idx) : Multiset (WithBot Field)) =
        {(k0 : WithBot Field), (k1 : WithBot Field), (k2 : WithBot Field),
          (k3 : WithBot Field)} := by
  refine ⟨_, sort_run_l1_eq t0 t1 t2 t3 idx, ?_, ?_⟩
  · obtain ⟨n1, n2, n3⟩ :=
      net4_sorted (t0.keyAt idx) (t1.keyAt idx) (t2.keyAt idx) (t3.keyAt idx)
    haveI : IsTrans Tuple (fun u v : Tuple => u.keyAt idx ≤ v.keyAt idx) :=
      ⟨fun _ _ _ hxy hyz => le_trans hxy hyz⟩
    refine (List.chain'_iff_pairwise).mp ?_
    simp only [List.chain'_cons, List.chain'_singleton, and_true]
    refine ⟨?_, ?_, ?_⟩ <;> simp only [keyAt_compare_min, keyAt_compare_max]
    · exact n1
    · exact n2
    · exact n3
  · simp only [List.map_cons, List.map_nil, keyAt_compare_min, keyAt_compare_max]
    set K0 := t0.keyAt idx with hK0
    set K1 := t1.keyAt idx with hK1
    set K2 := t2.keyAt idx with hK2
    set K3 := t3.keyAt idx with hK3
    have e0 : K0 = (k0 : WithBot Field) := hK0.symm.trans (Tuple.keyAt_of_get_field h0)
    have e1 : K1 = (k1 : WithBot Field) := hK1.symm.trans (Tuple.keyAt_of_get_field h1)
    have e2 : K2 = (k2 : WithBot Field) := hK2.symm.trans (Tuple.keyAt_of_get_field h2)
    have e3 : K3 = (k3 : WithBot Field) := hK3.symm.trans (Tuple.keyAt_of_get_field h3)
    show (min (min K0 K1) (min K2 K3)) ::ₘ
        (min (min (max K0 K1) (max K2 K3)) (max (min K0 K1) (min K2 K3))) ::ₘ
        (max (min (max K0 K1) (max K2 K3)) (max (min K0 K1) (min K2 K3))) ::ₘ
        (max (max K0 K1) (max K2 K3)) ::ₘ (0 : Multiset (WithBot Field)) =
      {(k0 : WithBot Field), (k1 : WithBot Field), (k2 : WithBot Field),
        (k3 : WithBot Field)}
    rw [min_max_cons,
      Multiset.cons_swap (min (max K0 K1) (max K2 K3)) (max (min K0 K1) (min K2 K3)),
      min_max_cons, min_max_cons,
      Multiset.cons_swap (min K2 K3) (max K0 K1),
      min_max_cons, min_max_cons, e0, e1, e2, e3]
    rfl

/-- C7 witness: four concrete tuples with distinct keys. -/
theorem sort_run_l1_sorts_keys_witness :
    ((Tuple.new [.IntField 7, .IntField 0]).get_field 0 = some (Field.IntField 7)) ∧
    (∃ out, sort_run_l1 [Tuple.new [.IntField 7, .IntField 0],
        Tuple.new [.IntField 3, .IntField 1], Tuple.new [.IntField 9, .IntField 2],
        Tuple.new [.IntField 1, .IntField 3]] 0 = some out ∧
      List.Sorted (fun u v : Tuple => u.keyAt 0 ≤ v.keyAt 0) out ∧
      (out.map (fun t => t.keyAt 0) : Multiset (WithBot Field)) =
        {(Field.IntField 7 : WithBot Field), (Field.IntField 3 : WithBot Field),
          (Field.IntField 9 : WithBot Field), (Field.IntField 1 : WithBot Field)}) :=
  ⟨by decide,
    sort_run_l1_sorts_keys (Tuple.new [.IntField 7, .IntField 0])
      (Tuple.new [.IntField 3, .IntField 1]) (Tuple.new [.IntField 9, .IntField 2])
      (Tuple.new [.IntField 1, .IntField 3]) 0 (.IntField 7) (.IntField 3)
      (.IntField 9) (.IntField 1) (by decide) (by decide) (by decide) (by decide)⟩

/-- C7 counterexample: on an equal-key comparison the network assigns the
second tuple to both positions — the output is not the input's 4 tuples (the
tuple `[1, 0]` is lost and `[1, 1]` duplicated), refuting "outputs the 4
tuples" as stated. -/
theorem sort_run_l1_tie_cx :
    sort_run_l1 (create_tuple_list [[1, 0], [1, 1], [2, 2], [3, 3]]) 0 =
      some (create_tuple_list [[1, 1], [1, 1], [2, 2], [3, 3]]) ∧
    ((create_tuple_list [[1, 1], [1, 1], [2, 2], [3, 3]] : List Tuple) : Multiset Tuple) ≠
      ((create_tuple_list [[1, 0], [1, 1], [2, 2], [3, 3]] : List Tuple) : Multiset Tuple) := by
  constructor
  · decide
  · decide

/-! ## Claim C3: the level-2 network -/

theorem keyAt_csw_fst (a b : Tuple) (idx : Nat) :
    (csw a b idx).1.keyAt idx = min (a.keyAt idx) (b.keyAt idx) := by
  unfold csw compare_max
  by_cases hlt : b.keyAt idx < a.keyAt idx
  · rw [if_pos hlt, if_pos rfl]
    exact (min_eq_right hlt.le).symm
  · rw [if_neg hlt]
    by_cases heq : b = a
    · subst heq
      simp
    · rw [if_neg heq]
      exact (min_eq_left (not_lt.mp hlt)).symm

theorem keyAt_csw_snd (a b : Tuple) (idx : Nat) :
    (csw a b idx).2.keyAt idx = max (a.keyAt idx) (b.keyAt idx) := by
  unfold csw compare_max
  by_cases hlt : b.keyAt idx < a.keyAt idx
  · rw [if_pos hlt, if_pos rfl]
    exact (max_eq_left hlt.le).symm
  · rw [if_neg hlt]
    by_cases heq : b = a
    · subst heq
      simp
    · rw [if_neg heq]
      exact (max_eq_right (not_lt.mp hlt)).symm

theorem head_swap_perm {α : Type} : ∀ (xs : List α) (m : Nat) (b a : α),
    xs.get? m = some b → (b :: xs.set m a).Perm (a :: xs) := by
  intro xs
  induction xs with
  | nil => intro m b a h; cases h
  | cons y ys ih =>
    intro m b a h
    cases m with
    | zero =>
      injection h with h'
      subst h'
      exact List.Perm.swap a y ys
    | succ m =>
      have h' : ys.get? m = some b := h
      have s1 : (b :: y :: ys.set m a).Perm (y :: b :: ys.set m a) :=
        List.Perm.swap _ _ _
      have s2 : (y :: b :: ys.set m a).Perm (y :: a :: ys) :=
        List.Perm.cons y (ih m b a h')
      have s3 : (y :: a :: ys).Perm (a :: y :: ys) := List.Perm.swap _ _ _
      exact s1.trans (s2.trans s3)

theorem set_swap_perm {α : Type} : ∀ (l : List α) (i j : Nat) (a b : α),
    l.get? i = some a → l.get? j = some b → ((l.set i b).set j a).Perm l := by
  intro l
  induction l with
  | nil => intro i j a b h _; cases h
  | cons x xs ih =>
    intro i j a b ha hb
    cases i with
    | zero =>
      injection ha with ha'
      cases j with
      | zero =>
        injection hb with hb'
        subst ha'
        subst hb'
        exact List.Perm.refl _
      | succ m =>
        have hb' : xs.get? m = some b := hb
        subst ha'
        exact head_swap_perm xs m b x hb'
    | succ n =>
      have ha' : xs.get? n = some a := ha
      cases j with
      | zero =>
        injection hb with hb'
        subst hb'
        exact head_swap_perm xs n a x ha'
      | succ m =>
        have hb' : xs.get? m = some b := hb
        exact List.Perm.cons x (ih n m a b ha' hb')

theorem cswapL2_perm {run : List Tuple} {i j idx : Nat} {out : List Tuple}
    (h : cswapL2 run i j idx = some out) : out.Perm run := by
  unfold cswapL2 at h
  cases hga : run.get? i with
  | none => rw [hga] at h; simp at h
  | some a =>
    cases hgb : run.get? j with
    | none => rw [hga, hgb] at h; simp at h
    | some b =>
      rw [hga, hgb] at h
      simp only [Option.bind_eq_bind, Option.some_bind] at h
      by_cases hc : compare_max a b idx = a
      · rw [if_pos hc] at h
        injection h with h'
        subst h'
        exact set_swap_perm run i j a b hga hgb
      · rw [if_neg hc] at h
        injection h with h'
        subst h'
        exact List.Perm.refl run

/-- Whenever `sort_run_l2` succeeds, its output is a permutation of its input
(the level-2 network only performs `swap`s). -/
theorem sort_run_l2_perm {run out : List Tuple} {idx : Nat}
    (h : sort_run_l2 run idx = some out) : out.Perm run := by
  unfold sort_run_l2 at h
  simp only [Option.bind_eq_bind] at h
  cases h1 : cswapL2 run 3 7 idx with
  | none => rw [h1] at h; simp at h
  | some r1 =>
  rw [h1] at h; rw [Option.some_bind] at h
  cases h2 : cswapL2 r1 2 6 idx with
  | none => rw [h2] at h; simp at h
  | some r2 =>
  rw [h2] at h; rw [Option.some_bind] at h
  cases h3 : cswapL2 r2 1 5 idx with
  | none => rw [h3] at h; simp at h
  | some r3 =>
  rw [h3] at h; rw [Option.some_bind] at h
  cases h4 : cswapL2 r3 0 4 idx with
  | none => rw [h4] at h; simp at h
  | some r4 =>
  rw [h4] at h; rw [Option.some_bind] at h
  cases h5 : cswapL2 r4 0 2 idx with
  | none => rw [h5] at h; simp at h
  | some r5 =>
  rw [h5] at h; rw [Option.some_bind] at h
  cases h6 : cswapL2 r5 5 7 idx with
  | none => rw [h6] at h; simp at h
  | some r6 =>
  rw [h6] at h; rw [Option.some_bind] at h
  cases h7 : cswapL2 r6 1 3 idx with
  | none => rw [h7] at h; simp at h
  | some r7 =>
  rw [h7] at h; rw [Option.some_bind] at h
  cases h8 : cswapL2 r7 4 6 idx with
  | none => rw [h8] at h; simp at h
  | some r8 =>
  rw [h8] at h; rw [Option.some_bind] at h
  cases h9 : cswapL2 r8 0 1 idx with
  | none => rw [h9] at h; simp at h
  | some r9 =>
  rw [h9] at h; rw [Option.some_bind] at h
  cases h10 : cswapL2 r9 2 3 idx with
  | none => rw [h10] at h; simp at h
  | some r10 =>
  rw [h10] at h; rw [Option.some_bind] at h
  cases h11 : cswapL2 r10 4 5 idx with
  | none => rw [h11] at h; simp at h
  | some r11 =>
  rw [h11] at h; rw [Option.some_bind] at h
  cases h12 : cswapL2 r11 6 7 idx with
  | none => rw [h12] at h; simp at h
  | some r12 =>
  rw [h12] at h; rw [Option.some_bind] at h
  injection h with h'
  subst h'
  exact ((((((((((((cswapL2_perm h12).trans (cswapL2_perm h11)).trans
    (cswapL2_perm h10)).trans (cswapL2_perm h9)).trans (cswapL2_perm h8)).trans
    (cswapL2_perm h7)).trans (cswapL2_perm h6)).trans (cswapL2_perm h5)).trans
    (cswapL2_perm h4)).trans (cswapL2_perm h3)).trans (cswapL2_perm h2)).trans
    (cswapL2_perm h1))

theorem cswapL2_s37 (u0 u1 u2 u3 u4 u5 u6 u7 : Tuple) (idx : Nat) :
    cswapL2 [u0, u1, u2, u3, u4, u5, u6, u7] 3 7 idx =
      some [u0, u1, u2, (csw u3 u7 idx).1, u4, u5, u6, (csw u3 u7 idx).2] := by
  by_cases hc : compare_max u3 u7 idx = u3 <;> simp [cswapL2, csw, hc]

theorem cswapL2_s26 (u0 u1 u2 u3 u4 u5 u6 u7 : Tuple) (idx : Nat) :
    cswapL2 [u0, u1, u2, u3, u4, u5, u6, u7] 2 6 idx =
      some [u0, u1, (csw u2 u6 idx).1, u3, u4, u5, (csw u2 u6 idx).2, u7] := by
  by_cases hc : compare_max u2 u6 idx = u2 <;> simp [cswapL2, csw, hc]

theorem cswapL2_s15 (u0 u1 u2 u3 u4 u5 u6 u7 : Tuple) (idx : Nat) :
    cswapL2 [u0, u1, u2, u3, u4, u5, u6, u7] 1 5 idx =
      some [u0, (csw u1 u5 idx).1, u2, u3, u4, (csw u1 u5 idx).2, u6, u7] := by
  by_cases hc : compare_max u1 u5 idx = u1 <;> simp [cswapL2, csw, hc]

theorem cswapL2_s04 (u0 u1 u2 u3 u4 u5 u6 u7 : Tuple) (idx : Nat) :
    cswapL2 [u0, u1, u2, u3, u4, u5, u6, u7] 0 4 idx =
      some [(csw u0 u4 idx).1, u1, u2, u3, (csw u0 u4 idx).2, u5, u6, u7] := by
  by_cases hc : compare_max u0 u4 idx = u0 <;> simp [cswapL2, csw, hc]

theorem cswapL2_s02 (u0 u1 u2 u3 u4 u5 u6 u7 : Tuple) (idx : Nat) :
    cswapL2 [u0, u1, u2, u3, u4, u5, u6, u7] 0 2 idx =
      some [(csw u0 u2 idx).1, u1, (csw u0 u2 idx).2, u3, u4, u5, u6, u7] := by
  by_cases hc : compare_max u0 u2 idx = u0 <;> simp [cswapL2, csw, hc]

theorem cswapL2_s57 (u0 u1 u2 u3 u4 u5 u6 u7 : Tuple) (idx : Nat) :
    cswapL2 [u0, u1, u2, u3, u4, u5, u6, u7] 5 7 idx =
      some [u0, u1, u2, u3, u4, (csw u5 u7 idx).1, u6, (csw u5 u7 idx).2] := by
  by_cases hc : compare_max u5 u7 idx = u5 <;> simp [cswapL2, csw, hc]

theorem cswapL2_s13 (u0 u1 u2 u3 u4 u5 u6 u7 : Tuple) (idx : Nat) :
    cswapL2 [u0, u1, u2, u3, u4, u5, u6, u7] 1 3 idx =
      some [u0, (csw u1 u3 idx).1, u2, (csw u1 u3 idx).2, u4, u5, u6, u7] := by
  by_cases hc : compare_max u1 u3 idx = u1 <;> simp [cswapL2, csw, hc]

theorem cswapL2_s46 (u0 u1 u2 u3 u4 u5 u6 u7 : Tuple) (idx : Nat) :
    cswapL2 [u0, u1, u2, u3, u4, u5, u6, u7] 4 6 idx =
      some [u0, u1, u2, u3, (csw u4 u6 idx).1, u5, (csw u4 u6 idx).2, u7] := by
  by_cases hc : compare_max u4 u6 idx = u4 <;> simp [cswapL2, csw, hc]

theorem cswapL2_s01 (u0 u1 u2 u3 u4 u5 u6 u7 : Tuple) (idx : Nat) :
    cswapL2 [u0, u1, u2, u3, u4, u5, u6, u7] 0 1 idx =
      some [(csw u0 u1 idx).1, (csw u0 u1 idx).2, u2, u3, u4, u5, u6, u7] := by
  by_cases hc : compare_max u0 u1 idx = u0 <;> simp [cswapL2, csw, hc]

theorem cswapL2_s23 (u0 u1 u2 u3 u4 u5 u6 u7 : Tuple) (idx : Nat) :
    cswapL2 [u0, u1, u2, u3, u4, u5, u6, u7] 2 3 idx =
      some [u0, u1, (csw u2 u3 idx).1, (csw u2 u3 idx).2, u4, u5, u6, u7] := by
  by_cases hc : compare_max u2 u3 idx = u2 <;> simp [cswapL2, csw, hc]

theorem cswapL2_s45 (u0 u1 u2 u3 u4 u5 u6 u7 : Tuple) (idx : Nat) :
    cswapL2 [u0, u1, u2, u3, u4, u5, u6, u7] 4 5 idx =
      some [u0, u1, u2, u3, (csw u4 u5 idx).1, (csw u4 u5 idx).2, u6, u7] := by
  by_cases hc : compare_max u4 u5 idx = u4 <;> simp [cswapL2, csw, hc]

theorem cswapL2_s67 (u0 u1 u2 u3 u4 u5 u6 u7 : Tuple) (idx : Nat) :
    cswapL2 [u0, u1, u2, u3, u4, u5, u6, u7] 6 7 idx =
      some [u0, u1, u2, u3, u4, u5, (csw u6 u7 idx).1, (csw u6 u7 idx).2] := by
  by_cases hc : compare_max u6 u7 idx = u6 <;> simp [cswapL2, csw, hc]

/-- The value-level content of the level-2 network on a *bitonic* input
(first four values ascending, last four descending): after a half-cleaner
stage (`l`/`h`), a comparator stage inside each half (`c`/`e`) and a final
adjacent stage (`w`), the eight outputs are sorted. Stated over an arbitrary
linear order with the stage outputs given by equations, so it can be applied
directly to the join-key values of `sort_run_l2`'s comparators. -/
theorem net8_bitonic {α : Type} [LinearOrder α]
    {a0 a1 a2 a3 b0 b1 b2 b3 : α}
    {l0 l1 l2 l3 h0 h1 h2 h3 c0 c1 c2 c3 e4 e5 e6 e7 : α}
    {w0 w1 w2 w3 w4 w5 w6 w7 : α}
    (h01 : a0 ≤ a1) (h12 : a1 ≤ a2) (h23 : a2 ≤ a3)
    (g10 : b1 ≤ b0) (g21 : b2 ≤ b1) (g32 : b3 ≤ b2)
    (Hl0 : l0 = min a0 b0) (Hl1 : l1 = min a1 b1)
    (Hl2 : l2 = min a2 b2) (Hl3 : l3 = min a3 b3)
    (Hh0 : h0 = max a0 b0) (Hh1 : h1 = max a1 b1)
    (Hh2 : h2 = max a2 b2) (Hh3 : h3 = max a3 b3)
    (Hc0 : c0 = min l0 l2) (Hc2 : c2 = max l0 l2)
    (Hc1 : c1 = min l1 l3) (Hc3 : c3 = max l1 l3)
    (He4 : e4 = min h0 h2) (He6 : e6 = max h0 h2)
    (He5 : e5 = min h1 h3) (He7 : e7 = max h1 h3)
    (Hw0 : w0 = min c0 c1) (Hw1 : w1 = max c0 c1)
    (Hw2 : w2 = min c2 c3) (Hw3 : w3 = max c2 c3)
    (Hw4 : w4 = min e4 e5) (Hw5 : w5 = max e4 e5)
    (Hw6 : w6 = min e6 e7) (Hw7 : w7 = max e6 e7) :
    w0 ≤ w1 ∧ w1 ≤ w2 ∧ w2 ≤ w3 ∧ w3 ≤ w4 ∧ w4 ≤ w5 ∧ w5 ≤ w6 ∧ w6 ≤ w7 := by
  subst Hl0 Hl1 Hl2 Hl3 Hh0 Hh1 Hh2 Hh3
  subst Hc0 Hc1 Hc2 Hc3 He4 He5 He6 He7
  subst Hw0 Hw1 Hw2 Hw3 Hw4 Hw5 Hw6 Hw7
  have ha02 : a0 ≤ a2 := h01.trans h12
  have ha13 : a1 ≤ a3 := h12.trans h23
  have ha03 : a0 ≤ a3 := ha02.trans h23
  have hb20 : b2 ≤ b0 := g21.trans g10
  have hb31 : b3 ≤ b1 := g32.trans g21
  have hb30 : b3 ≤ b0 := hb31.trans g10
  have lh00 : min a0 b0 ≤ max a0 b0 := min_le_max
  have lh01 : min a0 b0 ≤ max a1 b1 :=
    (min_le_left _ _).trans (h01.trans (le_max_left _ _))
  have lh02 : min a0 b0 ≤ max a2 b2 :=
    (min_le_left _ _).trans (ha02.trans (le_max_left _ _))
  have lh03 : min a0 b0 ≤ max a3 b3 :=
    (min_le_left _ _).trans (ha03.trans (le_max_left _ _))
  have lh10 : min a1 b1 ≤ max a0 b0 :=
    (min_le_right _ _).trans (g10.trans (le_max_right _ _))
  have lh11 : min a1 b1 ≤ max a1 b1 := min_le_max
  have lh12 : min a1 b1 ≤ max a2 b2 :=
    (min_le_left _ _).trans (h12.trans (le_max_left _ _))
  have lh13 : min a1 b1 ≤ max a3 b3 :=
    (min_le_left _ _).trans (ha13.trans (le_max_left _ _))
  have lh20 : min a2 b2 ≤ max a0 b0 :=
    (min_le_right _ _).trans (hb20.trans (le_max_right _ _))
  have lh21 : min a2 b2 ≤ max a1 b1 :=
    (min_le_right _ _).trans (g21.trans (le_max_right _ _))
  have lh22 : min a2 b2 ≤ max a2 b2 := min_le_max
  have lh23 : min a2 b2 ≤ max a3 b3 :=
    (min_le_left _ _).trans (h23.trans (le_max_left _ _))
  have lh30 : min a3 b3 ≤ max a0 b0 :=
    (min_le_right _ _).trans (hb30.trans (le_max_right _ _))
  have lh31 : min a3 b3 ≤ max a1 b1 :=
    (min_le_right _ _).trans (hb31.trans (le_max_right _ _))
  have lh32 : min a3 b3 ≤ max a2 b2 :=
    (min_le_right _ _).trans (g32.trans (le_max_right _ _))
  have lh33 : min a3 b3 ≤ max a3 b3 := min_le_max
  have hc03 : min (min a0 b0) (min a2 b2) ≤ max (min a1 b1) (min a3 b3) := by
    rcases le_total a1 b1 with hab | hba
    · have hl01 : min a0 b0 ≤ min a1 b1 :=
        le_min ((min_le_left _ _).trans h01)
          (((min_le_left _ _).trans h01).trans hab)
      exact (min_le_left _ _).trans (hl01.trans (le_max_left _ _))
    · have hl21 : min a2 b2 ≤ min a1 b1 :=
        le_min (((min_le_right _ _).trans g21).trans hba)
          ((min_le_right _ _).trans g21)
      exact (min_le_right _ _).trans (hl21.trans (le_max_left _ _))
  have hc12 : min (min a1 b1) (min a3 b3) ≤ max (min a0 b0) (min a2 b2) := by
    rcases le_total a2 b2 with hab | hba
    · have hl12 : min a1 b1 ≤ min a2 b2 :=
        le_min ((min_le_left _ _).trans h12)
          (((min_le_left _ _).trans h12).trans hab)
      exact (min_le_left _ _).trans (hl12.trans (le_max_right _ _))
    · have hl32 : min a3 b3 ≤ min a2 b2 :=
        le_min (((min_le_right _ _).trans g32).trans hba)
          ((min_le_right _ _).trans g32)
      exact (min_le_right _ _).trans (hl32.trans (le_max_right _ _))
  have he47 : min (max a0 b0) (max a2 b2) ≤ max (max a1 b1) (max a3 b3) := by
    rcases le_total a2 b2 with hab | hba
    · have hh21 : max a2 b2 ≤ max a1 b1 :=
        max_le ((hab.trans g21).trans (le_max_right _ _))
          (g21.trans (le_max_right _ _))
      exact (min_le_right _ _).trans (hh21.trans (le_max_left _ _))
    · have hh23 : max a2 b2 ≤ max a3 b3 :=
        max_le (h23.trans (le_max_left _ _))
          ((hba.trans h23).trans (le_max_left _ _))
      exact (min_le_right _ _).trans (hh23.trans (le_max_right _ _))
  have he56 : min (max a1 b1) (max a3 b3) ≤ max (max a0 b0) (max a2 b2) := by
    rcases le_total a1 b1 with hab | hba
    · have hh10 : max a1 b1 ≤ max a0 b0 :=
        max_le ((hab.trans g10).trans (le_max_right _ _))
          (g10.trans (le_max_right _ _))
      exact (min_le_left _ _).trans (hh10.trans (le_max_left _ _))
    · have hh12 : max a1 b1 ≤ max a2 b2 :=
        max_le (h12.trans (le_max_left _ _))
          ((hba.trans h12).trans (le_max_left _ _))
      exact (min_le_left _ _).trans (hh12.trans (le_max_right _ _))
  refine ⟨min_le_max, ?_, min_le_max, ?_, min_le_max, ?_, min_le_max⟩
  · exact max_le (le_min min_le_max hc03) (le_min hc12 min_le_max)
  · exact max_le
      (le_min (max_le (le_min lh00 lh02) (le_min lh20 lh22))
        (max_le (le_min lh01 lh03) (le_min lh21 lh23)))
      (le_min (max_le (le_min lh10 lh12) (le_min lh30 lh32))
        (max_le (le_min lh11 lh13) (le_min lh31 lh33)))
  · exact max_le (le_min min_le_max he47) (le_min he56 min_le_max)

/-- Claim C3 (corrected): `sort_run_l2` is a bitonic merger, not a full
sorter. On any 8 tuples whose join keys form a bitonic sequence — first four
non-decreasing, last four non-increasing — it succeeds and outputs a
permutation of the input whose join keys are in non-decreasing order. (The
companion counterexample shows it does `not` sort arbitrary 8-key inputs.) -/
theorem sort_run_l2_bitonic_sorts (t0 t1 t2 t3 t4 t5 t6 t7 : Tuple) (idx : Nat)
    (h01 : t0.keyAt idx ≤ t1.keyAt idx) (h12 : t1.keyAt idx ≤ t2.keyAt idx)
    (h23 : t2.keyAt idx ≤ t3.keyAt idx)
    (h54 : t5.keyAt idx ≤ t4.keyAt idx) (h65 : t6.keyAt idx ≤ t5.keyAt idx)
    (h76 : t7.keyAt idx ≤ t6.keyAt idx) :
    ∃ out, sort_run_l2 [t0, t1, t2, t3, t4, t5, t6, t7] idx = some out ∧
      out.Perm [t0, t1, t2, t3, t4, t5, t6, t7] ∧
      List.Chain' (fun u v : Tuple => u.keyAt idx ≤ v.keyAt idx) out := by
  set lo0 := (csw t0 t4 idx).1 with hlo0
  set hi0 := (csw t0 t4 idx).2 with hhi0
  set lo1 := (csw t1 t5 idx).1 with hlo1
  set hi1 := (csw t1 t5 idx).2 with hhi1
  set lo2 := (csw t2 t6 idx).1 with hlo2
  set hi2 := (csw t2 t6 idx).2 with hhi2
  set lo3 := (csw t3 t7 idx).1 with hlo3
  set hi3 := (csw t3 t7 idx).2 with hhi3
  set c0 := (csw lo0 lo2 idx).1 with hc0
  set c2 := (csw lo0 lo2 idx).2 with hc2
  set c1 := (csw lo1 lo3 idx).1 with hc1
  set c3 := (csw lo1 lo3 idx).2 with hc3
  set e5 := (csw hi1 hi3 idx).1 with he5
  set e7 := (csw hi1 hi3 idx).2 with he7
  set e4 := (csw hi0 hi2 idx).1 with he4
  set e6 := (csw hi0 hi2 idx).2 with he6
  set w0 := (csw c0 c1 idx).1 with hw0
  set w1 := (csw c0 c1 idx).2 with hw1
  set w2 := (csw c2 c3 idx).1 with hw2
  set w3 := (csw c2 c3 idx).2 with hw3
  set w4 := (csw e4 e5 idx).1 with hw4
  set w5 := (csw e4 e5 idx).2 with hw5
  set w6 := (csw e6 e7 idx).1 with hw6
  set w7 := (csw e6 e7 idx).2 with hw7
  have hrun : sort_run_l2 [t0, t1, t2, t3, t4, t5, t6, t7] idx =
      some [w0, w1, w2, w3, w4, w5, w6, w7] := by
    simp only [sort_run_l2, Option.bind_eq_bind]
    rw [cswapL2_s37, Option.some_bind, cswapL2_s26, Option.some_bind,
        cswapL2_s15, Option.some_bind, cswapL2_s04, Option.some_bind,
        cswapL2_s02, Option.some_bind, cswapL2_s57, Option.some_bind,
        cswapL2_s13, Option.some_bind, cswapL2_s46, Option.some_bind,
        cswapL2_s01, Option.some_bind, cswapL2_s23, Option.some_bind,
        cswapL2_s45, Option.some_bind, cswapL2_s67, Option.some_bind]
    rfl
  have Klo0 : lo0.keyAt idx = min (t0.keyAt idx) (t4.keyAt idx) := by
    rw [hlo0]; exact keyAt_csw_fst t0 t4 idx
  have Khi0 : hi0.keyAt idx = max (t0.keyAt idx) (t4.keyAt idx) := by
    rw [hhi0]; exact keyAt_csw_snd t0 t4 idx
  have Klo1 : lo1.keyAt idx = min (t1.keyAt idx) (t5.keyAt idx) := by
    rw [hlo1]; exact keyAt_csw_fst t1 t5 idx
  have Khi1 : hi1.keyAt idx = max (t1.keyAt idx) (t5.keyAt idx) := by
    rw [hhi1]; exact keyAt_csw_snd t1 t5 idx
  have Klo2 : lo2.keyAt idx = min (t2.keyAt idx) (t6.keyAt idx) := by
    rw [hlo2]; exact keyAt_csw_fst t2 t6 idx
  have Khi2 : hi2.keyAt idx = max (t2.keyAt idx) (t6.keyAt idx) := by
    rw [hhi2]; exact keyAt_csw_snd t2 t6 idx
  have Klo3 : lo3.keyAt idx = min (t3.keyAt idx) (t7.keyAt idx) := by
    rw [hlo3]; exact keyAt_csw_fst t3 t7 idx
  have Khi3 : hi3.keyAt idx = max (t3.keyAt idx) (t7.keyAt idx) := by
    rw [hhi3]; exact keyAt_csw_snd t3 t7 idx
  have Kc0 : c0.keyAt idx = min (lo0.keyAt idx) (lo2.keyAt idx) := by
    rw [hc0]; exact keyAt_csw_fst lo0 lo2 idx
  have Kc2 : c2.keyAt idx = max (lo0.keyAt idx) (lo2.keyAt idx) := by
    rw [hc2]; exact keyAt_csw_snd lo0 lo2 idx
  have Kc1 : c1.keyAt idx = min (lo1.keyAt idx) (lo3.keyAt idx) := by
    rw [hc1]; exact keyAt_csw_fst lo1 lo3 idx
  have Kc3 : c3.keyAt idx = max (lo1.keyAt idx) (lo3.keyAt idx) := by
    rw [hc3]; exact keyAt_csw_snd lo1 lo3 idx
  have Ke4 : e4.keyAt idx = min (hi0.keyAt idx) (hi2.keyAt idx) := by
    rw [he4]; exact keyAt_csw_fst hi0 hi2 idx
  have Ke6 : e6.keyAt idx = max (hi0.keyAt idx) (hi2.keyAt idx) := by
    rw [he6]; exact keyAt_csw_snd hi0 hi2 idx
  have Ke5 : e5.keyAt idx = min (hi1.keyAt idx) (hi3.keyAt idx) := by
    rw [he5]; exact keyAt_csw_fst hi1 hi3 idx
  have Ke7 : e7.keyAt idx = max (hi1.keyAt idx) (hi3.keyAt idx) := by
    rw [he7]; exact keyAt_csw_snd hi1 hi3 idx
  have Kw0 : w0.keyAt idx = min (c0.keyAt idx) (c1.keyAt idx) := by
    rw [hw0]; exact keyAt_csw_fst c0 c1 idx
  have Kw1 : w1.keyAt idx = max (c0.keyAt idx) (c1.keyAt idx) := by
    rw [hw1]; exact keyAt_csw_snd c0 c1 idx
  have Kw2 : w2.keyAt idx = min (c2.keyAt idx) (c3.keyAt idx) := by
    rw [hw2]; exact keyAt_csw_fst c2 c3 idx
  have Kw3 : w3.keyAt idx = max (c2.keyAt idx) (c3.keyAt idx) := by
    rw [hw3]; exact keyAt_csw_snd c2 c3 idx
  have Kw4 : w4.keyAt idx = min (e4.keyAt idx) (e5.keyAt idx) := by
    rw [hw4]; exact keyAt_csw_fst e4 e5 idx
  have Kw5 : w5.keyAt idx = max (e4.keyAt idx) (e5.keyAt idx) := by
    rw [hw5]; exact keyAt_csw_snd e4 e5 idx
  have Kw6 : w6.keyAt idx = min (e6.keyAt idx) (e7.keyAt idx) := by
    rw [hw6]; exact keyAt_csw_fst e6 e7 idx
  have Kw7 : w7.keyAt idx = max (e6.keyAt idx) (e7.keyAt idx) := by
    rw [hw7]; exact keyAt_csw_snd e6 e7 idx
  have net := net8_bitonic (α := WithBot Field) h01 h12 h23 h54 h65 h76
    Klo0 Klo1 Klo2 Klo3 Khi0 Khi1 Khi2 Khi3 Kc0 Kc2 Kc1 Kc3 Ke4 Ke6 Ke5 Ke7
    Kw0 Kw1 Kw2 Kw3 Kw4 Kw5 Kw6 Kw7
  refine ⟨[w0, w1, w2, w3, w4, w5, w6, w7], hrun, sort_run_l2_perm hrun, ?_⟩
  simp only [List.chain'_cons, List.chain'_singleton, and_true]
  exact net

/-- Witness for C3: a concrete bitonic input (keys 1,2,3,4 then 9,8,7,6)
on which the corrected theorem applies. -/
theorem sort_run_l2_bitonic_sorts_witness :
    ∃ out, sort_run_l2 [Tuple.new [Field.IntField 1], Tuple.new [Field.IntField 2],
      Tuple.new [Field.IntField 3], Tuple.new [Field.IntField 4],
      Tuple.new [Field.IntField 9], Tuple.new [Field.IntField 8],
      Tuple.new [Field.IntField 7], Tuple.new [Field.IntField 6]] 0 = some out ∧
      out.Perm [Tuple.new [Field.IntField 1], Tuple.new [Field.IntField 2],
        Tuple.new [Field.IntField 3], Tuple.new [Field.IntField 4],
        Tuple.new [Field.IntField 9], Tuple.new [Field.IntField 8],
        Tuple.new [Field.IntField 7], Tuple.new [Field.IntField 6]] ∧
      List.Chain' (fun u v : Tuple => u.keyAt 0 ≤ v.keyAt 0) out :=
  sort_run_l2_bitonic_sorts _ _ _ _ _ _ _ _ 0
    (by decide) (by decide) (by decide) (by decide) (by decide) (by decide)

/-- Counterexample for C3's universal claim: the input with keys
1,1,0,0,1,1,0,0 (two descending level-1 runs, not bitonic) is mapped to the
unsorted key sequence 0,0,1,1,0,0,1,1 — `sort_run_l2` does not sort
arbitrary 8-tuple inputs. -/
theorem sort_run_l2_not_all_cx :
    sort_run_l2 (create_tuple_list [[1], [1], [0], [0], [1], [1], [0], [0]]) 0 =
      some (create_tuple_list [[0], [0], [1], [1], [0], [0], [1], [1]]) ∧
    ¬ List.Chain' (fun u v : Tuple => u.keyAt 0 ≤ v.keyAt 0)
        (create_tuple_list [[0], [0], [1], [1], [0], [0], [1], [1]]) := by
  refine ⟨by decide, fun h => ?_⟩
  simp only [create_tuple_list, List.map, List.chain'_cons, List.chain'_singleton,
    and_true] at h
  exact absurd h.2.2.2.1 (by decide)

/-! ## Claim C8: the level-3 range partition -/

theorem partition3_mem (o t : Int) (index : Nat) (ts : List Tuple) :
    ∀ b1 b2 b3, partition3 o t index ts = some (b1, b2, b3) →
      ((∀ u ∈ b1, ∃ f, u.get_field index = some f ∧ f ≤ Field.IntField o) ∧
       (∀ u ∈ b2, ∃ f, u.get_field index = some f ∧
          ¬ f ≤ Field.IntField o ∧ f ≤ Field.IntField t) ∧
       (∀ u ∈ b3, ∃ f, u.get_field index = some f ∧
          ¬ f ≤ Field.IntField o ∧ ¬ f ≤ Field.IntField t)) := by
  induction ts with
  | nil =>
    intro b1 b2 b3 h
    simp only [partition3, Option.some.injEq, Prod.mk.injEq] at h
    obtain ⟨e1, e2, e3⟩ := h
    subst e1; subst e2; subst e3
    exact ⟨fun u hu => absurd hu (List.not_mem_nil u),
      fun u hu => absurd hu (List.not_mem_nil u),
      fun u hu => absurd hu (List.not_mem_nil u)⟩
  | cons t' ts ih =>
    intro b1 b2 b3 h
    simp only [partition3, Option.bind_eq_bind] at h
    cases hf : t'.get_field index with
    | none => rw [hf] at h; simp at h
    | some f =>
    rw [hf, Option.some_bind] at h
    cases hr : partition3 o t index ts with
    | none => rw [hr] at h; simp at h
    | some r =>
    obtain ⟨q1, q2, q3⟩ := r
    rw [hr, Option.some_bind] at h
    obtain ⟨m1, m2, m3⟩ := ih q1 q2 q3 hr
    by_cases h1 : f ≤ Field.IntField o
    · rw [if_pos h1] at h
      simp only [Option.pure_def, Option.some.injEq, Prod.mk.injEq] at h
      obtain ⟨e1, e2, e3⟩ := h
      subst e1; subst e2; subst e3
      refine ⟨?_, m2, m3⟩
      intro u hu
      rcases List.mem_cons.mp hu with rfl | hu'
      · exact ⟨f, hf, h1⟩
      · exact m1 u hu'
    · rw [if_neg h1] at h
      by_cases h2 : f ≤ Field.IntField t
      · rw [if_pos h2] at h
        simp only [Option.pure_def, Option.some.injEq, Prod.mk.injEq] at h
        obtain ⟨e1, e2, e3⟩ := h
        subst e1; subst e2; subst e3
        refine ⟨m1, ?_, m3⟩
        intro u hu
        rcases List.mem_cons.mp hu with rfl | hu'
        · exact ⟨f, hf, h1, h2⟩
        · exact m2 u hu'
      · rw [if_neg h2] at h
        simp only [Option.pure_def, Option.some.injEq, Prod.mk.injEq] at h
        obtain ⟨e1, e2, e3⟩ := h
        subst e1; subst e2; subst e3
        refine ⟨m1, m2, ?_⟩
        intro u hu
        rcases List.mem_cons.mp hu with rfl | hu'
        · exact ⟨f, hf, h1, h2⟩
        · exact m3 u hu'

/-- Claim C8: m-way range partitioning preserves bucket ordering. Whenever
`sort_m_way_l3` succeeds, producing buckets `b1, b2, b3`, every tuple of
bucket `i` has join key ≤ every tuple of bucket `i+1` (tuples at or below
the first cut go to bucket 1, at or below the second cut to bucket 2, the
rest to bucket 3), and each bucket is internally sorted by join key. -/
theorem sort_m_way_l3_buckets (runs : List (List Tuple)) (mn mx : Tuple)
    (index : Nat) (b1 b2 b3 : List Tuple)
    (h : sort_m_way_l3 runs mn mx index = some [b1, b2, b3]) :
    (∀ u1 ∈ b1, ∀ u2 ∈ b2, u1.keyAt index ≤ u2.keyAt index) ∧
    (∀ u2 ∈ b2, ∀ u3 ∈ b3, u2.keyAt index ≤ u3.keyAt index) ∧
    List.Sorted (tupleLe index) b1 ∧ List.Sorted (tupleLe index) b2 ∧
    List.Sorted (tupleLe index) b3 := by
  cases hmF : mn.get_field index with
  | none => simp [sort_m_way_l3, hmF] at h
  | some minF =>
  cases hmV : minF.unwrap_int_field with
  | none => simp [sort_m_way_l3, hmF, hmV] at h
  | some min_val =>
  cases hxF : mx.get_field index with
  | none => simp [sort_m_way_l3, hmF, hmV, hxF] at h
  | some maxF =>
  cases hxV : maxF.unwrap_int_field with
  | none => simp [sort_m_way_l3, hmF, hmV, hxF, hxV] at h
  | some max_val =>
  simp only [sort_m_way_l3, hmF, hmV, hxF, hxV, Option.bind_eq_bind,
    Option.some_bind] at h
  cases hp : partition3 (wrap32 (min_val + Int.tdiv (wrap32 (max_val - min_val)) 3))
      (wrap32 (min_val + Int.tdiv (wrap32 (wrap32 (max_val - min_val) * 2)) 3))
      index runs.flatten with
  | none => rw [hp] at h; simp at h
  | some r =>
  obtain ⟨p1, p2, p3⟩ := r
  rw [hp, Option.some_bind] at h
  simp only [Option.pure_def, Option.some.injEq, List.cons.injEq, and_true] at h
  obtain ⟨e1, e2, e3⟩ := h
  subst e1; subst e2; subst e3
  obtain ⟨m1, m2, m3⟩ := partition3_mem _ _ index runs.flatten p1 p2 p3 hp
  refine ⟨?_, ?_, List.sorted_insertionSort _ _, List.sorted_insertionSort _ _,
    List.sorted_insertionSort _ _⟩
  · intro u1 hu1 u2 hu2
    have hu1' : u1 ∈ p1 :=
      ((List.perm_insertionSort (tupleLe index) p1).mem_iff).mp hu1
    have hu2' : u2 ∈ p2 :=
      ((List.perm_insertionSort (tupleLe index) p2).mem_iff).mp hu2
    obtain ⟨f1, hf1, hle1⟩ := m1 u1 hu1'
    obtain ⟨f2, hf2, hgt2, _⟩ := m2 u2 hu2'
    rw [Tuple.keyAt_of_get_field hf1, Tuple.keyAt_of_get_field hf2]
    exact WithBot.coe_le_coe.mpr (hle1.trans (not_le.mp hgt2).le)
  · intro u2 hu2 u3 hu3
    have hu2' : u2 ∈ p2 :=
      ((List.perm_insertionSort (tupleLe index) p2).mem_iff).mp hu2
    have hu3' : u3 ∈ p3 :=
      ((List.perm_insertionSort (tupleLe index) p3).mem_iff).mp hu3
    obtain ⟨f2, hf2, _, hle2⟩ := m2 u2 hu2'
    obtain ⟨f3, hf3, _, hgt3⟩ := m3 u3 hu3'
    rw [Tuple.keyAt_of_get_field hf2, Tuple.keyAt_of_get_field hf3]
    exact WithBot.coe_le_coe.mpr (hle2.trans (not_le.mp hgt3).le)

/-- Witness for C8: the repository's own `test_sort_m_way_l3` data. -/
theorem sort_m_way_l3_buckets_witness :
    (∀ u1 ∈ create_tuple_list [[5, 17], [3, 18], [7, 19]],
      ∀ u2 ∈ create_tuple_list [[1, 20], [1, 21]], u1.keyAt 1 ≤ u2.keyAt 1) ∧
    (∀ u2 ∈ create_tuple_list [[1, 20], [1, 21]],
      ∀ u3 ∈ create_tuple_list [[3, 22], [5, 23], [7, 24]],
        u2.keyAt 1 ≤ u3.keyAt 1) ∧
    List.Sorted (tupleLe 1) (create_tuple_list [[5, 17], [3, 18], [7, 19]]) ∧
    List.Sorted (tupleLe 1) (create_tuple_list [[1, 20], [1, 21]]) ∧
    List.Sorted (tupleLe 1) (create_tuple_list [[3, 22], [5, 23], [7, 24]]) :=
  sort_m_way_l3_buckets
    [create_tuple_list [[5, 17], [3, 18], [7, 19], [1, 20], [1, 21], [3, 22], [5, 23], [7, 24]]]
    (Tuple.new [.IntField 5, .IntField 17]) (Tuple.new [.IntField 7, .IntField 24]) 1
    (create_tuple_list [[5, 17], [3, 18], [7, 19]])
    (create_tuple_list [[1, 20], [1, 21]])
    (create_tuple_list [[3, 22], [5, 23], [7, 24]])
    (by decide)

/-! ## Claim C9: rewind reproduces the drain -/

theorem join_eq_of_fields {a b : Join}
    (h1 : a.predicate = b.predicate) (h2 : a.left_child = b.left_child)
    (h3 : a.right_child = b.right_child) (h4 : a.left_rem = b.left_rem)
    (h5 : a.left_tuple_cur = b.left_tuple_cur) (h6 : a.right_rem = b.right_rem) :
    a = b := by
  cases a; cases b; simp_all

theorem hashEq_eq_of_fields {a b : HashEqJoin}
    (h1 : a.predicate = b.predicate) (h2 : a.left_child = b.left_child)
    (h3 : a.right_child = b.right_child) (h4 : a.is_open = b.is_open)
    (h5 : a.ht = b.ht) (h6 : a.field_cur = b.field_cur)
    (h7 : a.index_cur = b.index_cur) (h8 : a.right_tuple_cur = b.right_tuple_cur)
    (h9 : a.left_rem = b.left_rem) (h10 : a.right_rem = b.right_rem) : a = b := by
  cases a; cases b; simp_all

theorem join_next_statics {j : Join} {o : Option Tuple} {j' : Join}
    (h : j.next = some (o, j')) :
    j'.predicate = j.predicate ∧ j'.left_child = j.left_child ∧
      j'.right_child = j.right_child := by
  unfold Join.next at h
  cases hng : Join.nextGo j.predicate j.right_child j.left_rem j.left_tuple_cur
      j.right_rem with
  | none => rw [hng] at h; exact Option.noConfusion h
  | some r =>
    rw [hng] at h
    have h2 : (some (r.1, (⟨j.predicate, j.left_child, j.right_child, r.2.1,
        r.2.2.1, r.2.2.2⟩ : Join)) : Option (Option Tuple × Join)) = some (o, j') := h
    injection h2 with h3
    injection h3 with e1 e2
    subst e2
    exact ⟨rfl, rfl, rfl⟩

theorem join_drainSt_statics : ∀ (fuel : Nat) {j : Join} {out : List Tuple}
    {j' : Join}, Join.drainSt fuel j = some (out, j') →
    j'.predicate = j.predicate ∧ j'.left_child = j.left_child ∧
      j'.right_child = j.right_child := by
  intro fuel
  induction fuel with
  | zero => intro j out j' h; exact Option.noConfusion h
  | succ fuel ih =>
    intro j out j' h
    unfold Join.drainSt at h
    cases hn : j.next with
    | none => rw [hn] at h; exact Option.noConfusion h
    | some r =>
      rw [hn] at h
      obtain ⟨o, j1⟩ := r
      cases o with
      | none =>
        have h2 : (some (([] : List Tuple), j1) : Option (List Tuple × Join)) =
            some (out, j') := h
        injection h2 with h3
        injection h3 with e1 e2
        subst e2
        exact join_next_statics hn
      | some t =>
        have h2 : (Join.drainSt fuel j1).map (fun r => (t :: r.1, r.2)) =
            some (out, j') := h
        cases hd : Join.drainSt fuel j1 with
        | none => rw [hd] at h2; exact Option.noConfusion h2
        | some r1 =>
          rw [hd] at h2
          have h3 : (some (t :: r1.1, r1.2) : Option (List Tuple × Join)) =
              some (out, j') := h2
          injection h3 with h4
          injection h4 with e1 e2
          subst e2
          obtain ⟨a1, a2, a3⟩ := ih hd
          obtain ⟨b1, b2, b3⟩ := join_next_statics hn
          exact ⟨a1.trans b1, a2.trans b2, a3.trans b3⟩

theorem hashEq_next_pres {j : HashEqJoin} {o : Option Tuple} {j' : HashEqJoin}
    (h : j.next = some (o, j')) :
    j'.predicate = j.predicate ∧ j'.left_child = j.left_child ∧
    j'.right_child = j.right_child ∧ j'.is_open = j.is_open ∧
    j'.ht = j.ht ∧ j'.left_rem = j.left_rem := by
  unfold HashEqJoin.next at h
  split at h
  · exact Option.noConfusion h
  · split at h
    · injection h with h'
      injection h' with e1 e2
      subst e2
      exact ⟨rfl, rfl, rfl, rfl, rfl, rfl⟩
    · split at h
      · exact Option.noConfusion h
      · injection h with h'
        injection h' with e1 e2
        subst e2
        exact ⟨rfl, rfl, rfl, rfl, rfl, rfl⟩
      · split at h
        · exact Option.noConfusion h
        · split at h
          · exact Option.noConfusion h
          · injection h with h'
            injection h' with e1 e2
            subst e2
            exact ⟨rfl, rfl, rfl, rfl, rfl, rfl⟩

theorem hashEq_drain_pres : ∀ (fuel : Nat) {j : HashEqJoin} {out : List Tuple}
    {j' : HashEqJoin}, HashEqJoin.drain fuel j = some (out, j') →
    j'.predicate = j.predicate ∧ j'.left_child = j.left_child ∧
    j'.right_child = j.right_child ∧ j'.is_open = j.is_open ∧
    j'.ht = j.ht ∧ j'.left_rem = j.left_rem := by
  intro fuel
  induction fuel with
  | zero => intro j out j' h; exact Option.noConfusion h
  | succ fuel ih =>
    intro j out j' h
    unfold HashEqJoin.drain at h
    cases hn : j.next with
    | none => rw [hn] at h; exact Option.noConfusion h
    | some r =>
      rw [hn] at h
      obtain ⟨o, j1⟩ := r
      cases o with
      | none =>
        have h2 : (some (([] : List Tuple), j1) :
            Option (List Tuple × HashEqJoin)) = some (out, j') := h
        injection h2 with h3
        injection h3 with e1 e2
        subst e2
        exact hashEq_next_pres hn
      | some t =>
        have h2 : (HashEqJoin.drain fuel j1).map (fun r => (t :: r.1, r.2)) =
            some (out, j') := h
        cases hd : HashEqJoin.drain fuel j1 with
        | none => rw [hd] at h2; exact Option.noConfusion h2
        | some r1 =>
          rw [hd] at h2
          have h3 : (some (t :: r1.1, r1.2) : Option (List Tuple × HashEqJoin)) =
              some (out, j') := h2
          injection h3 with h4
          injection h4 with e1 e2
          subst e2
          obtain ⟨a1, a2, a3, a4, a5, a6⟩ := ih hd
          obtain ⟨b1, b2, b3, b4, b5, b6⟩ := hashEq_next_pres hn
          exact ⟨a1.trans b1, a2.trans b2, a3.trans b3, a4.trans b4,
            a5.trans b5, a6.trans b6⟩

theorem partOpen_found {j : HashEqJoin} {f : Field} {t : Tuple} {ts : List Tuple}
    (hS : seekMatch j.ht j.predicate.right_index j.right_rem =
      some (some (f, t, ts))) :
    HashEqJoin.partOpen j = some ⟨j.predicate, j.left_child, j.right_child,
      j.is_open, j.ht, f, 0, t, j.left_rem, ts⟩ := by
  unfold HashEqJoin.partOpen
  rw [hS]

/-- Claim C9 (corrected): rewind-then-drain reproduces the first drain for
the nested-loop join with a non-empty left child, and for the hash equi-join
`provided` the opening probe found a right tuple whose key is in the built
map (the cursor is then re-derived deterministically; without that proviso
the stale sentinel cursor makes the two drains differ — see the
counterexample). In both cases rewinding restores exactly the post-open
state; for the hash join the map is untouched by the drain and by rewind,
and only the right cursor is reset. -/
theorem rewind_reproduces_drain :
    (∀ (p : JoinPredicate) (lt : Tuple) (ls right out : List Tuple)
        (j0 j1 : Join) (fuel : Nat),
        Join.openOp p (lt :: ls) right = some j0 →
        Join.drainSt fuel j0 = some (out, j1) →
        ∃ j2, Join.rewindOp j1 = some j2 ∧ j2 = j0 ∧
          Join.drainSt fuel j2 = some (out, j1)) ∧
    (∀ (op : SimplePredicateOp) (li ri : Nat) (left right out : List Tuple)
        (h0 h1 : HashEqJoin) (fuel : Nat),
        HashEqJoin.openOp (HashEqJoin.new op li ri left right) = some h0 →
        (∃ f t ts, seekMatch h0.ht ri right = some (some (f, t, ts))) →
        HashEqJoin.drain fuel h0 = some (out, h1) →
        h1.ht = h0.ht ∧ ∃ h2, HashEqJoin.rewindOp h1 = some h2 ∧ h2 = h0 ∧
          HashEqJoin.drain fuel h2 = some (out, h1)) := by
  constructor
  · intro p lt ls right out j0 j1 fuel hopen hdrain
    have hopen2 : (some (⟨p, lt :: ls, right, ls, lt, right⟩ : Join) :
        Option Join) = some j0 := hopen
    injection hopen2 with hopen'
    subst hopen'
    obtain ⟨e1, e2, e3⟩ := join_drainSt_statics fuel hdrain
    have e1' : j1.predicate = p := e1
    have e2' : j1.left_child = lt :: ls := e2
    have e3' : j1.right_child = right := e3
    have hrew : Join.rewindOp j1 = some (⟨j1.predicate, j1.left_child,
        j1.right_child, ls, lt, j1.right_child⟩ : Join) := by
      unfold Join.rewindOp
      rw [e2']
    have hj2 : (⟨j1.predicate, j1.left_child, j1.right_child, ls, lt,
        j1.right_child⟩ : Join) = ⟨p, lt :: ls, right, ls, lt, right⟩ :=
      join_eq_of_fields e1' e2' e3' rfl rfl e3'
    refine ⟨_, hrew, hj2, ?_⟩
    rw [hj2]
    exact hdrain
  · intro op li ri left right out h0 h1 fuel hopen hmatch hdrain
    unfold HashEqJoin.openOp at hopen
    split at hopen
    · exact Option.noConfusion hopen
    · rename_i HT hB
      unfold HashEqJoin.partOpen at hopen
      split at hopen
      · exact Option.noConfusion hopen
      · rename_i hS0
        obtain ⟨f, t, ts, hft⟩ := hmatch
        injection hopen with hopen'
        rw [← hopen'] at hft
        have hft' : seekMatch HT ri right = some (some (f, t, ts)) := hft
        have hS0' : seekMatch HT ri right = some none := hS0
        rw [hS0'] at hft'
        exact Option.noConfusion (Option.some.inj hft')
      · rename_i f t ts hS
        have hS' : seekMatch HT ri right = some (some (f, t, ts)) := hS
        injection hopen with hopen'
        have hp : h0.predicate = JoinPredicate.new op li ri := by
          rw [← hopen']; exact rfl
        have hlc : h0.left_child = left := by rw [← hopen']; exact rfl
        have hrc : h0.right_child = right := by rw [← hopen']; exact rfl
        have ho : h0.is_open = true := by rw [← hopen']
        have hh : h0.ht = HT := by rw [← hopen']
        have hfc : h0.field_cur = f := by rw [← hopen']
        have hic : h0.index_cur = 0 := by rw [← hopen']
        have hrt : h0.right_tuple_cur = t := by rw [← hopen']
        have hlr : h0.left_rem = ([] : List Tuple) := by rw [← hopen']
        have hrr : h0.right_rem = ts := by rw [← hopen']
        obtain ⟨a1, a2, a3, a4, a5, a6⟩ := hashEq_drain_pres fuel hdrain
        refine ⟨a5, ?_⟩
        have hS1 : seekMatch h1.ht h1.predicate.right_index h1.right_child =
            some (some (f, t, ts)) := by
          rw [a5, hh, a1, hp, a3, hrc]
          exact hS'
        have hrew0 : HashEqJoin.rewindOp h1 = some ⟨h1.predicate, h1.left_child,
            h1.right_child, h1.is_open, h1.ht, f, 0, t, h1.left_rem, ts⟩ := by
          unfold HashEqJoin.rewindOp
          exact partOpen_found hS1
        have hfin : (⟨h1.predicate, h1.left_child, h1.right_child, h1.is_open,
            h1.ht, f, 0, t, h1.left_rem, ts⟩ : HashEqJoin) = h0 :=
          hashEq_eq_of_fields a1 a2 a3 a4 a5 hfc.symm hic.symm hrt.symm a6
            hrr.symm
        refine ⟨_, hrew0, hfin, ?_⟩
        rw [hfin]
        exact hdrain

/-- Witness for C9: both halves applied at concrete inputs — a nested-loop
join on left `[[1]]`, right `[[2]]` (no matches) and a hash equi-join on
left `[[1]]`, right `[[1]]` (one match, so the opening probe finds a
cursor). -/
theorem rewind_reproduces_drain_witness :
    (∃ j2, Join.rewindOp ⟨JoinPredicate.new .Equals 0 0,
        [Tuple.new [.IntField 1]], [Tuple.new [.IntField 2]], [],
        Tuple.new [.IntField 1], []⟩ = some j2 ∧
      j2 = ⟨JoinPredicate.new .Equals 0 0, [Tuple.new [.IntField 1]],
        [Tuple.new [.IntField 2]], [], Tuple.new [.IntField 1],
        [Tuple.new [.IntField 2]]⟩ ∧
      Join.drainSt 1 j2 = some ([], ⟨JoinPredicate.new .Equals 0 0,
        [Tuple.new [.IntField 1]], [Tuple.new [.IntField 2]], [],
        Tuple.new [.IntField 1], []⟩)) ∧
    ((⟨JoinPredicate.new .Equals 0 0, [Tuple.new [.IntField 1]],
        [Tuple.new [.IntField 1]], true,
        [(Field.IntField 1, [Tuple.new [.IntField 1]])], Field.IntField 1, 1,
        Tuple.new [.IntField 1], [], []⟩ : HashEqJoin).ht =
      (⟨JoinPredicate.new .Equals 0 0, [Tuple.new [.IntField 1]],
        [Tuple.new [.IntField 1]], true,
        [(Field.IntField 1, [Tuple.new [.IntField 1]])], Field.IntField 1, 0,
        Tuple.new [.IntField 1], [], []⟩ : HashEqJoin).ht ∧
      ∃ h2, HashEqJoin.rewindOp ⟨JoinPredicate.new .Equals 0 0,
          [Tuple.new [.IntField 1]], [Tuple.new [.IntField 1]], true,
          [(Field.IntField 1, [Tuple.new [.IntField 1]])], Field.IntField 1, 1,
          Tuple.new [.IntField 1], [], []⟩ = some h2 ∧
        h2 = ⟨JoinPredicate.new .Equals 0 0, [Tuple.new [.IntField 1]],
          [Tuple.new [.IntField 1]], true,
          [(Field.IntField 1, [Tuple.new [.IntField 1]])], Field.IntField 1, 0,
          Tuple.new [.IntField 1], [], []⟩ ∧
        HashEqJoin.drain 2 h2 = some ([Tuple.new [.IntField 1, .IntField 1]],
          ⟨JoinPredicate.new .Equals 0 0, [Tuple.new [.IntField 1]],
            [Tuple.new [.IntField 1]], true,
            [(Field.IntField 1, [Tuple.new [.IntField 1]])], Field.IntField 1,
            1, Tuple.new [.IntField 1], [], []⟩)) :=
  ⟨rewind_reproduces_drain.1 (JoinPredicate.new .Equals 0 0)
      (Tuple.new [.IntField 1]) [] [Tuple.new [.IntField 2]] []
      ⟨JoinPredicate.new .Equals 0 0, [Tuple.new [.IntField 1]],
        [Tuple.new [.IntField 2]], [], Tuple.new [.IntField 1],
        [Tuple.new [.IntField 2]]⟩
      ⟨JoinPredicate.new .Equals 0 0, [Tuple.new [.IntField 1]],
        [Tuple.new [.IntField 2]], [], Tuple.new [.IntField 1], []⟩ 1
      (by decide) (by decide),
   rewind_reproduces_drain.2 .Equals 0 0 [Tuple.new [.IntField 1]]
      [Tuple.new [.IntField 1]] [Tuple.new [.IntField 1, .IntField 1]]
      ⟨JoinPredicate.new .Equals 0 0, [Tuple.new [.IntField 1]],
        [Tuple.new [.IntField 1]], true,
        [(Field.IntField 1, [Tuple.new [.IntField 1]])], Field.IntField 1, 0,
        Tuple.new [.IntField 1], [], []⟩
      ⟨JoinPredicate.new .Equals 0 0, [Tuple.new [.IntField 1]],
        [Tuple.new [.IntField 1]], true,
        [(Field.IntField 1, [Tuple.new [.IntField 1]])], Field.IntField 1, 1,
        Tuple.new [.IntField 1], [], []⟩ 2
      (by decide) ⟨Field.IntField 1, Tuple.new [.IntField 1], [], by decide⟩
      (by decide)⟩

/-- Counterexample for C9's unconditional hash half: with left `[[0]]`,
right `[[7]]` and `Equals 0 0`, no right key is in the table, so the opened
operator keeps the `IntField(0)` sentinel cursor, which happens to be a real
key of the table.  The first drain emits one (spurious) tuple `[0]` (the left
tuple merged with the empty sentinel right tuple) and leaves `index_cur = 1`;
rewind's `partial_open` again finds no matching right tuple and resets
nothing, so the second drain emits nothing — the two drains differ. -/
theorem hashEq_rewind_not_reproduce_cx :
    HashEqJoin.openOp (HashEqJoin.new .Equals 0 0 [Tuple.new [.IntField 0]]
        [Tuple.new [.IntField 7]]) =
      some ⟨JoinPredicate.new .Equals 0 0, [Tuple.new [.IntField 0]],
        [Tuple.new [.IntField 7]], true,
        [(Field.IntField 0, [Tuple.new [.IntField 0]])], Field.IntField 0, 0,
        Tuple.new [], [], []⟩ ∧
    HashEqJoin.drain 2 ⟨JoinPredicate.new .Equals 0 0,
        [Tuple.new [.IntField 0]], [Tuple.new [.IntField 7]], true,
        [(Field.IntField 0, [Tuple.new [.IntField 0]])], Field.IntField 0, 0,
        Tuple.new [], [], []⟩ =
      some ([Tuple.new [.IntField 0]], ⟨JoinPredicate.new .Equals 0 0,
        [Tuple.new [.IntField 0]], [Tuple.new [.IntField 7]], true,
        [(Field.IntField 0, [Tuple.new [.IntField 0]])], Field.IntField 0, 1,
        Tuple.new [], [], []⟩) ∧
    HashEqJoin.rewindOp ⟨JoinPredicate.new .Equals 0 0,
        [Tuple.new [.IntField 0]], [Tuple.new [.IntField 7]], true,
        [(Field.IntField 0, [Tuple.new [.IntField 0]])], Field.IntField 0, 1,
        Tuple.new [], [], []⟩ =
      some ⟨JoinPredicate.new .Equals 0 0, [Tuple.new [.IntField 0]],
        [Tuple.new [.IntField 7]], true,
        [(Field.IntField 0, [Tuple.new [.IntField 0]])], Field.IntField 0, 1,
        Tuple.new [], [], []⟩ ∧
    HashEqJoin.drain 2 ⟨JoinPredicate.new .Equals 0 0,
        [Tuple.new [.IntField 0]], [Tuple.new [.IntField 7]], true,
        [(Field.IntField 0, [Tuple.new [.IntField 0]])], Field.IntField 0, 1,
        Tuple.new [], [], []⟩ =
      some ([], ⟨JoinPredicate.new .Equals 0 0, [Tuple.new [.IntField 0]],
        [Tuple.new [.IntField 7]], true,
        [(Field.IntField 0, [Tuple.new [.IntField 0]])], Field.IntField 0, 1,
        Tuple.new [], [], []⟩) ∧
    ([Tuple.new [.IntField 0]] : List Tuple) ≠ [] := by
  decide

-- sanity checks (concrete evaluation of the value model)
example : (Field.IntField 3) < (Field.StringField "a") := by decide
example : (Tuple.new [.IntField 1]).merge (Tuple.new [.IntField 2]) =
    Tuple.new [.IntField 1, .IntField 2] := by decide
example : (JoinPredicate.new .Equals 0 0).cmp (Tuple.new [.IntField 1])
    (Tuple.new [.IntField 1, .IntField 5]) = some true := by decide
example : (JoinPredicate.new .Equals 1 0).cmp (Tuple.new [.IntField 1])
    (Tuple.new [.IntField 1]) = none := by decide
example : (Tuple.new [.IntField 4]).keyAt 2 = ⊥ := by decide
example : (Tuple.new [.IntField 4]).keyAt 0 < (Tuple.new [.IntField 5]).keyAt 0 := by decide

-- nested-loop join: drain the §8 concrete scenario restricted to two tuples
example :
    (Join.openOp (JoinPredicate.new .Equals 0 0)
        [Tuple.new [.IntField 1, .IntField 4], Tuple.new [.IntField 3, .IntField 3]]
        [Tuple.new [.IntField 1, .IntField 2, .IntField 3]]).bind (Join.drain 4) =
      some [Tuple.new [.IntField 1, .IntField 4, .IntField 1, .IntField 2, .IntField 3]] := by
  decide

example :
    crossJoinSpec (JoinPredicate.new .Equals 0 0)
        [Tuple.new [.IntField 1, .IntField 4], Tuple.new [.IntField 3, .IntField 3]]
        [Tuple.new [.IntField 1, .IntField 2, .IntField 3]] =
      [Tuple.new [.IntField 1, .IntField 4, .IntField 1, .IntField 2, .IntField 3]] := by
  decide

/-! Cross-validation of the embedding against the repository's own unit tests
(`mod test` in `join.rs`): `sort_l1`, `sort_l2`, `merge_1_2`, `sort_m_way`,
`join_mway`, `join_mpass`, `eq_join_m_way` and `eq_join_m_pass`. -/

-- test_level_one_sort
example : sort_run_l1 (create_tuple_list [[1, 8], [3, 2], [5, 1], [7, 4]]) 1 =
    some (create_tuple_list [[5, 1], [3, 2], [7, 4], [1, 8]]) := by decide

-- test_level_two_sort
example : sort_run_l2
    (create_tuple_list [[5, 1], [3, 2], [7, 4], [1, 8], [1, 9], [3, 7], [5, 5], [7, 0]]) 1 =
    some (create_tuple_list [[7, 0], [5, 1], [3, 2], [7, 4], [5, 5], [3, 7], [1, 8], [1, 9]]) := by decide

-- test_merge_1_to_2
example : merge_1_to_2 [create_tuple_list [[5, 17], [3, 18], [7, 19], [1, 20]],
      create_tuple_list [[5, 9], [3, 10], [7, 11], [1, 12]]] =
    [create_tuple_list [[5, 17], [3, 18], [7, 19], [1, 20], [1, 12], [7, 11], [3, 10], [5, 9]]] := by decide

-- test_sort_m_way_l3 (the active single-run variant)
example : sort_m_way_l3
      [create_tuple_list [[5, 17], [3, 18], [7, 19], [1, 20], [1, 21], [3, 22], [5, 23], [7, 24]]]
      (Tuple.new [.IntField 5, .IntField 17]) (Tuple.new [.IntField 7, .IntField 24]) 1 =
    some [create_tuple_list [[5, 17], [3, 18], [7, 19]], create_tuple_list [[1, 20], [1, 21]],
      create_tuple_list [[3, 22], [5, 23], [7, 24]]] := by decide

-- test_join_m_way
example : join_m_way (create_tuple_list [[5, 1], [3, 8], [1, 10], [1, 20]])
      (create_tuple_list [[5, 1], [3, 2], [7, 3], [1, 4], [1, 5], [3, 6], [5, 7], [7, 8]])
      (JoinPredicate.new .Equals 1 1) =
    some (create_tuple_list [[5, 1, 5, 1], [3, 8, 7, 8]]) := by decide

-- test_join_m_pass
example : join_m_pass (create_tuple_list [[5, 17], [3, 18], [1, 20], [1, 30]])
      [create_tuple_list [[5, 1], [3, 2], [7, 3], [1, 4], [1, 5], [3, 6], [5, 7], [7, 8]],
       create_tuple_list [[5, 9], [3, 10], [7, 11], [1, 12], [1, 13], [3, 14], [5, 15], [7, 16]],
       create_tuple_list [[6, 17], [5, 18], [7, 19], [1, 20], [1, 21], [3, 22], [5, 23], [7, 24]]]
      (JoinPredicate.new .Equals 1 1) =
    some (create_tuple_list [[5, 17, 6, 17], [3, 18, 5, 18], [1, 20, 1, 20]]) := by decide

-- test_final / eq_join_m_way: scan1 ⋈ scan2 on field 1 = field 1, m-way
example :
    (SortMergeJoin.openOp (JoinPredicate.new .Equals 1 1) 1
        (create_tuple_list [[1, 4], [3, 3], [5, 6], [7, 8], [1, 1], [3, 7], [5, 2], [7, 5]])
        (create_tuple_list [[1, 2, 3], [2, 3, 4], [3, 4, 5], [4, 5, 6], [5, 9, 7], [1, 10, 3],
             [2, 7, 4], [3, 6, 5]])).bind
      (fun s => (SortMergeJoin.next s).map fun r => r.2.l3_runs_l) =
    some [create_tuple_list [[5, 2, 1, 2, 3], [3, 3, 2, 3, 4], [1, 4, 3, 4, 5]],
          create_tuple_list [[7, 5, 4, 5, 6], [5, 6, 3, 6, 5], [3, 7, 2, 7, 4]],
          create_tuple_list []] := by decide

-- test_final / eq_join_m_pass
example :
    (SortMergeJoin.openOp (JoinPredicate.new .Equals 1 1) 2
        (create_tuple_list [[1, 4], [3, 3], [5, 6], [7, 8], [1, 1], [3, 7], [5, 2], [7, 5]])
        (create_tuple_list [[1, 2, 3], [2, 3, 4], [3, 4, 5], [4, 5, 6], [5, 9, 7], [1, 10, 3],
             [2, 7, 4], [3, 6, 5]])).bind
      (fun s => (SortMergeJoin.next s).map fun r => r.2.l3_runs_l) =
    some [create_tuple_list [[5, 2, 1, 2, 3], [3, 3, 2, 3, 4], [1, 4, 3, 4, 5], [7, 5, 4, 5, 6],
              [5, 6, 3, 6, 5], [3, 7, 2, 7, 4]]] := by decide

-- HashEqJoin on the §8 scenario: drain matches the nested-loop multiset
example :
    ((HashEqJoin.new .Equals 0 0 (create_tuple_list [[1, 4], [3, 3]]) (create_tuple_list [[1, 2, 3], [3, 6, 5]])).openOp).bind
      (fun j => (HashEqJoin.drain 4 j).map Prod.fst) =
    some (create_tuple_list [[1, 4, 1, 2, 3], [3, 3, 3, 6, 5]]) := by decide

end Crusty
